import Mathlib

/-!
Verification of the RepoRecon LLM-response pipeline
(`src/backend/core/gemini_service.py`): README content reduction,
quota-aware model invocation, tolerant response parsing, and schema
validation.  Python strings are modelled as `List Char`; Python regular
expressions used by the source are modelled operationally by scanners
that reproduce the source patterns' backtracking behaviour; machine
integers do not overflow in any of the modelled code paths.
-/

namespace RepoRecon

/-- Python whitespace for `str.strip` and the regex class `\s`
(ASCII: space, tab, newline, carriage return, vertical tab, form feed). -/
def isPyWs (c : Char) : Bool :=
  c = ' ' || c = '\t' || c = '\n' || c = '\r' || c = '\x0b' || c = '\x0c'

/-- Python `str.strip()` on a character list. -/
def pyStripL (l : List Char) : List Char :=
  ((l.dropWhile isPyWs).reverse.dropWhile isPyWs).reverse

/-- Python `str.rstrip()`. -/
def rstripL (l : List Char) : List Char :=
  (l.reverse.dropWhile isPyWs).reverse

/-- Python `str.lower()` (ASCII case folding). -/
def lowerL (l : List Char) : List Char :=
  l.map Char.toLower

/-- Python `str.count(c)` for a single character. -/
def countC (l : List Char) (c : Char) : Nat :=
  l.countP (· = c)

/-- Python `str.endswith(c)` for a single character. -/
def lastIs (l : List Char) (c : Char) : Bool :=
  match l.getLast? with
  | some d => d = c
  | none => false

/-- Index of the first occurrence of `c` from position `i`, if any. -/
def findIdxC : List Char → Char → Nat → Option Nat
  | [], _, _ => none
  | d :: rest, c, i => if d = c then some i else findIdxC rest c (i + 1)

/-- Index of the last occurrence of `c` (Python `str.rfind`), if any. -/
def rfindC (l : List Char) (c : Char) : Option Nat :=
  match findIdxC l.reverse c 0 with
  | some j => some (l.length - 1 - j)
  | none => none

/-- Case-insensitive (ASCII) equality of characters. -/
def ciEq (a b : Char) : Bool :=
  a.toLower = b.toLower

/-- Does `pat` occur as a contiguous substring of `l` (Python `in`)? -/
def containsSub (pat : List Char) : Nat → List Char → Bool
  | 0, _ => false
  | _ + 1, [] => pat = []
  | fuel + 1, l@(_ :: rest) =>
    if pat.isPrefixOf l then true else containsSub pat fuel rest

/-- Python `pat in s` for strings, via `containsSub`. -/
def pyIn (pat : List Char) (l : List Char) : Bool :=
  containsSub pat (l.length + 1) l

/-- Python `s.split('\n')`. -/
def splitNl : List Char → List (List Char)
  | [] => [[]]
  | c :: cs =>
    if c = '\n' then [] :: splitNl cs
    else
      match splitNl cs with
      | l :: ls => (c :: l) :: ls
      | [] => [[c]]

/-- Python `'\n'.join(lines)`. -/
def joinNl : List (List Char) → List Char
  | [] => []
  | [l] => l
  | l :: ls => l ++ '\n' :: joinNl ls

/-- Python `s.replace(pat, rep)` (all non-overlapping occurrences,
left to right); `pat` is nonempty in every use below. -/
def replaceAllL (pat rep : List Char) : Nat → List Char → List Char
  | 0, l => l
  | _ + 1, [] => []
  | fuel + 1, l@(c :: rest) =>
    if pat ≠ [] ∧ pat.isPrefixOf l then
      rep ++ replaceAllL pat rep fuel (l.drop pat.length)
    else c :: replaceAllL pat rep fuel rest

/-- Dynamically-typed values produced by Python `json.loads`.
Numbers keep their source lexeme (the modelled code never computes
with a parsed number, it only coerces values to strings). -/
inductive Json where
  | null : Json
  | bool (b : Bool) : Json
  | num (lexeme : String) : Json
  | str (s : String) : Json
  | arr (xs : List Json) : Json
  | obj (kvs : List (String × Json)) : Json
  deriving Repr

/-- JSON whitespace (RFC 8259: space, tab, newline, carriage return). -/
def isJsonWs (c : Char) : Bool :=
  c = ' ' || c = '\t' || c = '\n' || c = '\r'

/-- Value of a hexadecimal digit, if the character is one. -/
def hexVal (c : Char) : Option Nat :=
  if '0' ≤ c ∧ c ≤ '9' then some (c.toNat - '0'.toNat)
  else if 'a' ≤ c ∧ c ≤ 'f' then some (c.toNat - 'a'.toNat + 10)
  else if 'A' ≤ c ∧ c ≤ 'F' then some (c.toNat - 'A'.toNat + 10)
  else none

/-- Body of a JSON string after the opening quote: handles the escape
sequences `json.loads` accepts and rejects raw control characters
(strict mode).  Surrogate-pair recombination of `\uXXXX` escapes is not
modelled; no modelled input contains surrogate escapes.
Returns the decoded characters and the input after the closing quote. -/
def jsonStrBody : Nat → List Char → List Char → Option (List Char × List Char)
  | 0, _, _ => none
  | _ + 1, [], _ => none
  | fuel + 1, c :: rest, acc =>
    if c = '"' then some (acc.reverse, rest)
    else if c = '\\' then
      match rest with
      | [] => none
      | e :: rest2 =>
        if e = '"' then jsonStrBody fuel rest2 ('"' :: acc)
        else if e = '\\' then jsonStrBody fuel rest2 ('\\' :: acc)
        else if e = '/' then jsonStrBody fuel rest2 ('/' :: acc)
        else if e = 'b' then jsonStrBody fuel rest2 ('\x08' :: acc)
        else if e = 'f' then jsonStrBody fuel rest2 ('\x0c' :: acc)
        else if e = 'n' then jsonStrBody fuel rest2 ('\n' :: acc)
        else if e = 'r' then jsonStrBody fuel rest2 ('\r' :: acc)
        else if e = 't' then jsonStrBody fuel rest2 ('\t' :: acc)
        else if e = 'u' then
          match rest2 with
          | h1 :: h2 :: h3 :: h4 :: rest3 =>
            match hexVal h1, hexVal h2, hexVal h3, hexVal h4 with
            | some a, some b, some c', some d =>
              jsonStrBody fuel rest3
                (Char.ofNat (((a * 16 + b) * 16 + c') * 16 + d) :: acc)
            | _, _, _, _ => none
          | _ => none
        else none
    else if c.toNat < 32 then none
    else jsonStrBody fuel rest (c :: acc)

/-- Lexes a JSON number (sign, integer part without leading zeros,
optional fraction, optional exponent); returns the lexeme and the rest. -/
def jsonNum (l : List Char) : Option (List Char × List Char) :=
  let (sign, r1) :=
    match l with
    | '-' :: r => ([('-' : Char)], r)
    | _ => ([], l)
  let intDigits := r1.takeWhile Char.isDigit
  let r2 := r1.dropWhile Char.isDigit
  if intDigits = [] then none
  else if intDigits.length > 1 ∧ intDigits.headD '0' = '0' then none
  else
    let (frac, r3) :=
      match r2 with
      | '.' :: r =>
        let ds := r.takeWhile Char.isDigit
        if ds = [] then ([], r2) else ('.' :: ds, r.dropWhile Char.isDigit)
      | _ => ([], r2)
    if frac = [] ∧ r2 ≠ r3 then none
    else
      let (ex, r4) :=
        match r3 with
        | e :: r =>
          if e = 'e' ∨ e = 'E' then
            let (es, rr) :=
              match r with
              | s :: r' => if s = '+' ∨ s = '-' then ([s], r') else ([], r)
              | [] => ([], r)
            let ds := rr.takeWhile Char.isDigit
            if ds = [] then ([], r3)
            else (e :: es ++ ds, rr.dropWhile Char.isDigit)
          else ([], r3)
        | [] => ([], r3)
      some (sign ++ intDigits ++ frac ++ ex, r4)

mutual

/-- One JSON value, after skipping leading whitespace; returns the value
and the input immediately after it. -/
def jsonVal : Nat → List Char → Option (Json × List Char)
  | 0, _ => none
  | fuel + 1, l =>
    match l.dropWhile isJsonWs with
    | [] => none
    | c :: rest =>
      if c = '{' then
        let r2 := rest.dropWhile isJsonWs
        if r2.head? = some '}' then some (.obj [], r2.tail)
        else jsonMembers fuel r2 []
      else if c = '[' then
        let r2 := rest.dropWhile isJsonWs
        if r2.head? = some ']' then some (.arr [], r2.tail)
        else jsonElems fuel r2 []
      else if c = '"' then
        match jsonStrBody (rest.length + 1) rest [] with
        | some (s, r2) => some (.str (String.mk s), r2)
        | none => none
      else if ['t', 'r', 'u', 'e'].isPrefixOf (c :: rest) then
        some (.bool true, (c :: rest).drop 4)
      else if ['f', 'a', 'l', 's', 'e'].isPrefixOf (c :: rest) then
        some (.bool false, (c :: rest).drop 5)
      else if ['n', 'u', 'l', 'l'].isPrefixOf (c :: rest) then
        some (.null, (c :: rest).drop 4)
      else
        match jsonNum (c :: rest) with
        | some (lx, r2) => some (.num (String.mk lx), r2)
        | none => none

/-- Members of a JSON object, positioned at a key (whitespace skipped);
keeps duplicate keys in order, as later lookups take the last one. -/
def jsonMembers : Nat → List Char → List (String × Json) →
    Option (Json × List Char)
  | 0, _, _ => none
  | fuel + 1, l, acc =>
    match l with
    | '"' :: rest =>
      match jsonStrBody (rest.length + 1) rest [] with
      | some (k, r2) =>
        match r2.dropWhile isJsonWs with
        | ':' :: r3 =>
          match jsonVal fuel r3 with
          | some (v, r4) =>
            match r4.dropWhile isJsonWs with
            | ',' :: r5 =>
              jsonMembers fuel (r5.dropWhile isJsonWs)
                (acc ++ [(String.mk k, v)])
            | '}' :: r5 => some (.obj (acc ++ [(String.mk k, v)]), r5)
            | _ => none
          | none => none
        | _ => none
      | none => none
    | _ => none

/-- Elements of a JSON array, positioned at a value. -/
def jsonElems : Nat → List Char → List Json → Option (Json × List Char)
  | 0, _, _ => none
  | fuel + 1, l, acc =>
    match jsonVal fuel l with
    | some (v, r2) =>
      match r2.dropWhile isJsonWs with
      | ',' :: r3 => jsonElems fuel r3 (acc ++ [v])
      | ']' :: r3 => some (.arr (acc ++ [v]), r3)
      | _ => none
    | none => none

end

/-- Python `json.loads` on a character list: one JSON value, with only
whitespace allowed after it (otherwise "Extra data"). -/
def jsonLoadsL (l : List Char) : Option Json :=
  match jsonVal (l.length + 1) l with
  | some (v, rest) => if rest.dropWhile isJsonWs = [] then some v else none
  | none => none

/-- Python `json.loads` on a string. -/
def jsonLoads (s : String) : Option Json :=
  jsonLoadsL s.toList

/-- Python `dict.get`: with duplicate keys the later binding wins,
matching how `json.loads` builds a `dict`. -/
def pyGet (kvs : List (String × Json)) (k : String) : Option Json :=
  (kvs.reverse.find? (fun p => p.1 = k)).map (·.2)

mutual

/-- Python `repr` of a `json.loads` value (`None`/`True`/`False`,
single-quoted strings, `[...]` lists, `{...}` dicts); string-escaping
inside `repr` is not modelled, and numbers keep their lexeme. -/
def pyRepr : Json → String
  | .null => "None"
  | .bool true => "True"
  | .bool false => "False"
  | .num lx => lx
  | .str s => "'" ++ s ++ "'"
  | .arr xs => "[" ++ pyReprItems xs ++ "]"
  | .obj kvs => "\x7b" ++ pyReprPairs kvs ++ "\x7d"

/-- Comma-separated `repr`s of list items. -/
def pyReprItems : List Json → String
  | [] => ""
  | [x] => pyRepr x
  | x :: xs => pyRepr x ++ ", " ++ pyReprItems xs

/-- Comma-separated `'key': repr(value)` renderings of dict entries. -/
def pyReprPairs : List (String × Json) → String
  | [] => ""
  | [(k, v)] => "'" ++ k ++ "': " ++ pyRepr v
  | (k, v) :: kvs => "'" ++ k ++ "': " ++ pyRepr v ++ ", " ++ pyReprPairs kvs

end

/-- Python `str` of a `json.loads` value: identity on strings,
`repr`-like rendering otherwise. -/
def pyStr (j : Json) : String :=
  match j with
  | .str s => s
  | j => pyRepr j

/-- Default summary substituted by the schema validator
(`gemini_service.py:391`). -/
def defaultSummary : String := "No summary generated"

/-- Placeholder diagram substituted by the schema validator
(`gemini_service.py:392`). -/
def defaultMermaid : String :=
  "sequenceDiagram\n    participant A\n    participant B\n    A->>B: Analysis incomplete"

/-- `validate_response_schema` (`gemini_service.py:371-401`): rejects
non-objects, then builds the four-field result with defaults for
missing or mistyped fields and string-coerces every sequence element.
The result keeps the Python dict's insertion order. -/
def validate_response_schema (data : Json) : Except String (List (String × Json)) :=
  match data with
  | .obj kvs =>
    let summary :=
      match pyGet kvs "summary" with
      | some v => pyStr v
      | none => defaultSummary
    let mermaid :=
      match pyGet kvs "mermaid_code" with
      | some v => pyStr v
      | none => defaultMermaid
    let issues :=
      match pyGet kvs "detected_issues" with
      | some (.arr xs) => xs
      | _ => []
    let fixes :=
      match pyGet kvs "fix_recommendations" with
      | some (.arr xs) => xs
      | _ => []
    .ok [("summary", .str summary),
         ("mermaid_code", .str mermaid),
         ("detected_issues", .arr (issues.map (fun x => .str (pyStr x)))),
         ("fix_recommendations", .arr (fixes.map (fun x => .str (pyStr x))))]
  | _ => .error "Response must be a JSON object"

/-- Is the value a Python `dict` (`isinstance(data, dict)`)? -/
def Json.isObj : Json → Bool
  | .obj _ => true
  | _ => false

/-- README length budget (`gemini_service.py:437`). -/
def max_readme_length : Nat := 800

/-- Python `s.rsplit('.', 1)[0]`: everything before the last `'.'`,
or the whole string when there is none. -/
def rsplitDotHead (l : List Char) : List Char :=
  match l.reverse.dropWhile (· ≠ '.') with
  | [] => l
  | _ :: before => before.reverse

/-- The line-selection loop of the content reducer
(`gemini_service.py:446-463`): walks the lines with their index and a
running character count, keeps heading lines and the first 15 lines
while the budget allows, may keep a partial line when more than 50
characters of budget remain, and stops at the first line it rejects. -/
def selectLines (maxLen : Nat) : List (List Char) → Nat → Nat → List (List Char)
  | [], _, _ => []
  | line :: lines, i, charCount =>
    if charCount ≥ maxLen then []
    else if (pyStripL line).head? = some '#' ∨ i < 15 then
      if charCount + line.length + 1 ≤ maxLen then
        line :: selectLines maxLen lines (i + 1) (charCount + line.length + 1)
      else
        let remaining := maxLen - charCount
        if remaining > 50 then [line.take remaining] else []
    else []

/-- The content-reduction step of `perform_deep_analysis`
(`gemini_service.py:435-468`): inputs at most `maxLen` characters long
pass through verbatim; longer inputs go through line selection, and a
final safety trim cuts at the last sentence boundary of the first
`maxLen` characters and appends an ellipsis marker. -/
def reduceContentL (readme : List Char) (maxLen : Nat) : List Char :=
  if readme.length > maxLen then
    let lines := splitNl readme
    let essential := selectLines maxLen lines 0 0
    let joined := joinNl essential
    if joined.length > maxLen then
      rsplitDotHead (joined.take maxLen) ++ ['.', '.', '.']
    else joined
  else readme

/-- String-level wrapper for the content-reduction step. -/
def reduceContent (readme : String) (maxLen : Nat) : String :=
  String.mk (reduceContentL readme.toList maxLen)

/-- The content-reduction step with the budget the source fixes. -/
def reduceReadme (readme : String) : String :=
  reduceContent readme max_readme_length

/-- Outcome of one `model.generate_content` call of the simulated
backend: a reply text, or a raised exception carrying its message. -/
inductive GenOutcome where
  | ok (reply : String) : GenOutcome
  | err (msg : String) : GenOutcome
  deriving Repr

/-- Result of the invocation step: the reply or the raised error
message, the `response_mime_type` flag of each backend call made (in
order), and the total simulated `time.sleep` delay. -/
structure InvokeResult where
  result : Except String String
  calls : List Bool
  totalDelay : Nat
  deriving Repr

/-- Quota/rate-limit classification of an error message
(`gemini_service.py:528`): `"429"` in the text, or `"quota"` or
`"rate limit"` in its lower-cased form. -/
def is_quota_error (msg : String) : Bool :=
  pyIn "429".toList msg.toList ||
  pyIn "quota".toList (lowerL msg.toList) ||
  pyIn "rate limit".toList (lowerL msg.toList)

/-- Bounded attempt count of the retry loop (`gemini_service.py:495`). -/
def max_retries : Nat := 1

/-- Initial retry delay in seconds (`gemini_service.py:496`). -/
def initial_retry_delay : Nat := 90

/-- Message raised when the loop gives up on a quota failure
(`gemini_service.py:536-539`, with `max_retries = 1` interpolated). -/
def quotaExceededMsg : String :=
  "Quota exceeded after 1 attempts. Please wait before trying again or upgrade your API tier."

/-- One backend call: consumes the next scripted outcome and records
the call's forced-JSON flag.  A backend script that runs out of
outcomes answers with a sentinel error (never reached in the theorems
below). -/
def genCall (script : List GenOutcome) (calls : List Bool) (jsonMode : Bool) :
    GenOutcome × List GenOutcome × List Bool :=
  match script with
  | o :: rest => (o, rest, calls ++ [jsonMode])
  | [] => (.err "backend script exhausted", [], calls ++ [jsonMode])

/-- The retry loop of `perform_deep_analysis` (`gemini_service.py:498-542`):
each attempt first calls the backend with `response_mime_type` set; any
exception from that call is caught and the same call is repeated
without the option (`gemini_service.py:512-523`).  An exception
escaping the attempt is classified: quota-class failures would sleep
and double the delay when `attempt < max_retries - 1` and otherwise
raise the quota-exceeded error; any other failure is re-raised
immediately. -/
def invokeLoop (script : List GenOutcome) (calls : List Bool)
    (attempt maxR delay totalDelay : Nat) : Nat → InvokeResult
  | 0 => ⟨.error "loop fuel exhausted", calls, totalDelay⟩
  | fuel + 1 =>
    let (r1, script1, calls1) := genCall script calls true
    match r1 with
    | .ok reply => ⟨.ok reply, calls1, totalDelay⟩
    | .err _ =>
      let (r2, script2, calls2) := genCall script1 calls1 false
      match r2 with
      | .ok reply => ⟨.ok reply, calls2, totalDelay⟩
      | .err e2 =>
        if is_quota_error e2 then
          if attempt < maxR - 1 then
            invokeLoop script2 calls2 (attempt + 1) maxR (delay * 2)
              (totalDelay + delay) fuel
          else ⟨.error quotaExceededMsg, calls2, totalDelay⟩
        else ⟨.error e2, calls2, totalDelay⟩

/-- The invocation step (`gemini_service.py:494-545`): runs the retry
loop from attempt 0 with the configured bounds, then rejects an empty
reply (`gemini_service.py:544-545`). -/
def invokeModel (script : List GenOutcome) : InvokeResult :=
  let r := invokeLoop script [] 0 max_retries initial_retry_delay 0
    (max_retries + 1)
  match r.result with
  | .ok reply =>
    if reply = "" then ⟨.error "Empty response from Gemini model", r.calls, r.totalDelay⟩
    else r
  | .error _ => r

/-- Case-insensitive literal match at the start of the input; returns
the input after the literal. -/
def ciLit : List Char → List Char → Option (List Char)
  | [], l => some l
  | _, [] => none
  | p :: ps, c :: cs => if ciEq c p then ciLit ps cs else none

/-- Regex `\s+` at the start of the input (greedy, at least one). -/
def wsPlus (l : List Char) : Option (List Char) :=
  match l with
  | c :: _ => if isPyWs c then some (l.dropWhile isPyWs) else none
  | [] => none

/-- Regex `,?\s*` at the start of the input (greedy). -/
def commaWsStar (l : List Char) : List Char :=
  match l with
  | ',' :: rest => rest.dropWhile isPyWs
  | _ => l.dropWhile isPyWs

/-- One anchored conversational-opener pattern
(`gemini_service.py:203-212`), applied as `re.sub(pattern, '', text)`
with `re.IGNORECASE`: the match at position 0 is removed, or the text
is returned unchanged. -/
def applyLead (pat : List Char → Option (List Char)) (l : List Char) : List Char :=
  match pat l with
  | some rest => rest
  | none => l

/-- Pattern `^Sure,?\s*`. -/
def leadSure (l : List Char) : Option (List Char) :=
  (ciLit "Sure".toList l).map commaWsStar

/-- Pattern `^Here\s+is\s+your\s+`. -/
def leadHereIsYour (l : List Char) : Option (List Char) := do
  let r ← ciLit "Here".toList l
  let r ← wsPlus r
  let r ← ciLit "is".toList r
  let r ← wsPlus r
  let r ← ciLit "your".toList r
  wsPlus r

/-- Pattern `^Here's\s+your\s+`. -/
def leadHeresYour (l : List Char) : Option (List Char) := do
  let r ← ciLit "Here's".toList l
  let r ← wsPlus r
  let r ← ciLit "your".toList r
  wsPlus r

/-- Pattern `^Here\s+is\s+the\s+`. -/
def leadHereIsThe (l : List Char) : Option (List Char) := do
  let r ← ciLit "Here".toList l
  let r ← wsPlus r
  let r ← ciLit "is".toList r
  let r ← wsPlus r
  let r ← ciLit "the".toList r
  wsPlus r

/-- Pattern `^Here's\s+the\s+`. -/
def leadHeresThe (l : List Char) : Option (List Char) := do
  let r ← ciLit "Here's".toList l
  let r ← wsPlus r
  let r ← ciLit "the".toList r
  wsPlus r

/-- Pattern `^Of\s+course,?\s*`. -/
def leadOfCourse (l : List Char) : Option (List Char) := do
  let r ← ciLit "Of".toList l
  let r ← wsPlus r
  let r ← ciLit "course".toList r
  pure (commaWsStar r)

/-- Pattern `^I'll\s+`. -/
def leadIll (l : List Char) : Option (List Char) := do
  let r ← ciLit "I'll".toList l
  wsPlus r

/-- Pattern `^Let\s+me\s+`. -/
def leadLetMe (l : List Char) : Option (List Char) := do
  let r ← ciLit "Let".toList l
  let r ← wsPlus r
  let r ← ciLit "me".toList r
  wsPlus r

/-- The eight conversational-opener removals, applied in source order
to the evolving text (`gemini_service.py:203-214`). -/
def stripLeads (l : List Char) : List Char :=
  applyLead leadLetMe (applyLead leadIll (applyLead leadOfCourse
    (applyLead leadHeresThe (applyLead leadHereIsThe (applyLead leadHeresYour
      (applyLead leadHereIsYour (applyLead leadSure l)))))))

/-- The three conversational-closer phrases of the trailing-text
pattern (`gemini_service.py:217`), tried in alternation order. -/
def tailMatchAt (l : List Char) : Option (List Char) :=
  match ciLit "Is there anything else".toList l with
  | some r => some r
  | none =>
    match ciLit "Let me know".toList l with
    | some r => some r
    | none => ciLit "Hope this helps".toList l

/-- `re.sub(r'\.\s*(Is there anything else|Let me know|Hope this helps).*$', '', text, flags=re.IGNORECASE)`
(`gemini_service.py:217`): at the leftmost `'.'` followed (after
whitespace) by a closer phrase, `.*$` must reach the end of the text
without crossing a newline, so the remainder may contain at most one
final newline; the match — everything from the `'.'` up to the end,
excluding a final newline — is removed. -/
def stripTail : Nat → List Char → List Char
  | 0, l => l
  | _ + 1, [] => []
  | fuel + 1, c :: rest =>
    if c = '.' then
      match tailMatchAt (rest.dropWhile isPyWs) with
      | some after =>
        if after.all (· ≠ '\n') then []
        else if lastIs after '\n' ∧ (after.dropLast).all (· ≠ '\n') then ['\n']
        else c :: stripTail fuel rest
      | none => c :: stripTail fuel rest
    else c :: stripTail fuel rest

/-- The conversational stripping prologue of `parse_gemini_response`
(`gemini_service.py:200-218`): strip, remove openers, remove trailing
conversational text, strip again. -/
def stripConversational (l : List Char) : List Char :=
  let t := pyStripL l
  let t := stripLeads t
  let t := stripTail (t.length + 1) t
  pyStripL t

/-- Backtick character, used only through this definition. -/
def btick : Char := Char.ofNat 96

/-- Inner scan of the fenced-block pattern after `\{`: the lazy `.*?\}`
takes the first `'}'` from which `\s*` followed by a closing fence
matches (`re.DOTALL`, `gemini_service.py:230`). -/
def fenceBody (acc : List Char) : Nat → List Char → Option (List Char)
  | 0, _ => none
  | _ + 1, [] => none
  | fuel + 1, c :: rest =>
    if c = '}' then
      match rest.dropWhile isPyWs with
      | a :: b :: c' :: _ =>
        if a = btick ∧ b = btick ∧ c' = btick then some (acc.reverse ++ ['}'])
        else fenceBody ('}' :: acc) fuel rest
      | _ => fenceBody ('}' :: acc) fuel rest
    else fenceBody (c :: acc) fuel rest

/-- Attempt of the fenced-block pattern just after an opening fence:
optional literal `json` (case-sensitive), `\s*`, then `\{`; since `j`
and `{` are not whitespace, the backtracking alternatives collapse to
this direct reading. -/
def fenceTryAt (l : List Char) : Option (List Char) :=
  let r := if "json".toList.isPrefixOf l then l.drop 4 else l
  match r.dropWhile isPyWs with
  | '{' :: body => (fenceBody ['{'] (body.length + 1) body)
  | _ => none

/-- `re.search` of the fenced-block pattern
(the three-backtick fence, `gemini_service.py:230`): leftmost opening
fence from which the whole pattern matches; returns capture group 1. -/
def fencedScan : Nat → List Char → Option (List Char)
  | 0, _ => none
  | _ + 1, [] => none
  | fuel + 1, c :: rest =>
    if c = btick then
      match rest with
      | b :: c' :: rest2 =>
        if b = btick ∧ c' = btick then
          match fenceTryAt rest2 with
          | some inner => some inner
          | none => fencedScan fuel rest
        else fencedScan fuel rest
      | _ => fencedScan fuel rest
    else fencedScan fuel rest

/-- The brace-matching scan (`gemini_service.py:246-269`): walks the
text tracking escape state, quoted-string state and brace depth, and
returns `i + 1` for the position `i` of the brace closing the first
one, if the scan finds it. -/
def scanJsonEnd : List Char → Int → Bool → Bool → Nat → Option Nat
  | [], _, _, _, _ => none
  | c :: cs, braceCount, inString, escNext, i =>
    if escNext then scanJsonEnd cs braceCount inString false (i + 1)
    else if c = '\\' then scanJsonEnd cs braceCount inString true (i + 1)
    else if c = '"' then scanJsonEnd cs braceCount (!inString) escNext (i + 1)
    else if !inString then
      if c = '{' then scanJsonEnd cs (braceCount + 1) inString escNext (i + 1)
      else if c = '}' then
        if braceCount - 1 = 0 then some (i + 1)
        else scanJsonEnd cs (braceCount - 1) inString escNext (i + 1)
      else scanJsonEnd cs braceCount inString escNext (i + 1)
    else scanJsonEnd cs braceCount inString escNext (i + 1)

/-- The best-effort closure of truncated JSON
(`gemini_service.py:274-293`): right-strip; when the text does not end
in `'}'` and has more `'{'` than `'}'`, drop a trailing comma, close an
unterminated string at the last quote when the quotes before it are
odd in number (discarding anything after that quote), and append the
missing closing braces. -/
def repairTrunc (js0 : List Char) : List Char :=
  let js := rstripL js0
  if lastIs js '}' then js
  else if countC js '{' > countC js '}' then
    let missing := countC js '{' - countC js '}'
    let js := if lastIs (rstripL js) ',' then (rstripL js).dropLast else js
    let js :=
      if js.any (· = '"') ∧ ¬ lastIs (rstripL js) '"' then
        match rfindC js '"' with
        | some lastQuote =>
          if lastQuote > 0 then
            if countC (js.take lastQuote) '"' % 2 = 1 then
              js.take (lastQuote + 1) ++ ['"']
            else js
          else js
        | none => js
      else js
    js ++ List.replicate missing '}'
  else js

/-- `re.sub(r',\s*}', '}', s)` (`gemini_service.py:296`): every comma
followed by whitespace and a closing brace collapses to the brace;
scanning resumes after the replaced span. -/
def fixCommaBrace : Nat → List Char → List Char
  | 0, l => l
  | _ + 1, [] => []
  | fuel + 1, c :: rest =>
    if c = ',' then
      let d := rest.dropWhile isPyWs
      if d.head? = some '}' then '}' :: fixCommaBrace fuel d.tail
      else c :: fixCommaBrace fuel rest
    else c :: fixCommaBrace fuel rest

/-- `re.sub(r',\s*]', ']', s)` (`gemini_service.py:297`). -/
def fixCommaBracket : Nat → List Char → List Char
  | 0, l => l
  | _ + 1, [] => []
  | fuel + 1, c :: rest =>
    if c = ',' then
      let d := rest.dropWhile isPyWs
      if d.head? = some ']' then ']' :: fixCommaBracket fuel d.tail
      else c :: fixCommaBracket fuel rest
    else c :: fixCommaBracket fuel rest

/-- `re.sub(r',\s*$', '', s)` (`gemini_service.py:298`): the leftmost
comma followed only by whitespace up to the end is removed together
with that whitespace. -/
def fixTrailComma : Nat → List Char → List Char
  | 0, l => l
  | _ + 1, [] => []
  | fuel + 1, c :: rest =>
    if c = ',' ∧ rest.all isPyWs then []
    else c :: fixTrailComma fuel rest

/-- The three cheap syntactic repairs in source order
(`gemini_service.py:296-298`). -/
def commaFixes (l : List Char) : List Char :=
  let l := fixCommaBrace (l.length + 1) l
  let l := fixCommaBracket (l.length + 1) l
  fixTrailComma (l.length + 1) l

/-- Side condition under which all three comma repairs are the
identity: every comma of the text is followed, after whitespace, by a
double quote (so never by `'\x7d'`, `']'` or the end of text). -/
def commaOk : List Char → Bool
  | [] => true
  | c :: rest =>
    (if c = ',' then decide ((rest.dropWhile isPyWs).head? = some '"')
     else true) && commaOk rest

/-- Attempt of the quoted-field pattern
`"<field>"\s*:\s*"([^"]*(?:\\.[^"]*)*)"` at the current position: the
literal key, `\s*:\s*`, an opening quote, then — because `[^"]*` may
swallow backslashes and the engine takes the first success — the
capture runs to the first following quote, which must exist. -/
def fieldTryAt (lit : List Char) (l : List Char) : Option (List Char) :=
  if lit.isPrefixOf l then
    match (l.drop lit.length).dropWhile isPyWs with
    | ':' :: r2 =>
      match r2.dropWhile isPyWs with
      | '"' :: r3 =>
        if r3.any (· = '"') then some (r3.takeWhile (· ≠ '"')) else none
      | _ => none
    | _ => none
  else none

/-- `re.search` of the quoted-field pattern: leftmost position where
the attempt succeeds. -/
def fieldSearch (lit : List Char) : Nat → List Char → Option (List Char)
  | 0, _ => none
  | _ + 1, [] => none
  | fuel + 1, l@(_ :: rest) =>
    match fieldTryAt lit l with
    | some cap => some cap
    | none => fieldSearch lit fuel rest

/-- Attempt of the array-field pattern
`"<field>"\s*:\s*\[(.*?)\]` (with `re.DOTALL`) at the current
position: the literal key, `\s*:\s*`, `'['`, then the lazy capture up
to the first `']'`, which must exist. -/
def arrTryAt (lit : List Char) (l : List Char) : Option (List Char) :=
  if lit.isPrefixOf l then
    match (l.drop lit.length).dropWhile isPyWs with
    | ':' :: r2 =>
      match r2.dropWhile isPyWs with
      | '[' :: r3 =>
        if r3.any (· = ']') then some (r3.takeWhile (· ≠ ']')) else none
      | _ => none
    | _ => none
  else none

/-- `re.search` of the array-field pattern: leftmost position where the
attempt succeeds. -/
def arrSearch (lit : List Char) : Nat → List Char → Option (List Char)
  | 0, _ => none
  | _ + 1, [] => none
  | fuel + 1, l@(_ :: rest) =>
    match arrTryAt lit l with
    | some cap => some cap
    | none => arrSearch lit fuel rest

/-- `re.findall(r'"([^"]*)"', s)`: the captures between successive
non-overlapping quote pairs. -/
def quotedCaptures : Nat → List Char → List (List Char)
  | 0, _ => []
  | _ + 1, [] => []
  | fuel + 1, c :: rest =>
    if c = '"' then
      let cap := rest.takeWhile (· ≠ '"')
      match rest.dropWhile (· ≠ '"') with
      | '"' :: tail => cap :: quotedCaptures fuel tail
      | _ => []
    else quotedCaptures fuel rest

/-- Python `s.strip('"')`: strips quote characters from both ends. -/
def stripQuotes (l : List Char) : List Char :=
  ((l.dropWhile (· = '"')).reverse.dropWhile (· = '"')).reverse

/-- `[i.strip().strip('"') for i in re.findall(r'"([^"]*)"', s)]`
(`gemini_service.py:325`, `gemini_service.py:332`). -/
def arrayElems (inner : List Char) : List Json :=
  (quotedCaptures (inner.length + 1) inner).map
    (fun cap => Json.str (String.mk (stripQuotes (pyStripL cap))))

/-- The manual field-extraction stage (`gemini_service.py:309-333`):
pulls `summary` and `mermaid_code` as quoted strings (undoing `\"`
escapes, and `\n` escapes for the diagram) and the two arrays as the
quoted elements of a bracket-delimited span, building the result dict
in that insertion order. -/
def manualFields (js : List Char) : List (String × Json) :=
  let r1 :=
    match fieldSearch "\"summary\"".toList (js.length + 1) js with
    | some cap =>
      [("summary",
        Json.str (String.mk (replaceAllL ['\\', '"'] ['"'] (cap.length + 1) cap)))]
    | none => []
  let r2 := r1 ++
    match fieldSearch "\"mermaid_code\"".toList (js.length + 1) js with
    | some cap =>
      let c1 := replaceAllL ['\\', '"'] ['"'] (cap.length + 1) cap
      [("mermaid_code",
        Json.str (String.mk (replaceAllL ['\\', 'n'] ['\n'] (c1.length + 1) c1)))]
    | none => []
  let r3 := r2 ++
    match arrSearch "\"detected_issues\"".toList (js.length + 1) js with
    | some inner => [("detected_issues", Json.arr (arrayElems inner))]
    | none => []
  r3 ++
    match arrSearch "\"fix_recommendations\"".toList (js.length + 1) js with
    | some inner => [("fix_recommendations", Json.arr (arrayElems inner))]
    | none => []

/-- `re.findall(r'\{[^{}]*\}', text, re.DOTALL)`
(`gemini_service.py:343`): every minimal brace-delimited span with no
nested braces, left to right. -/
def candFind : Nat → List Char → List (List Char)
  | 0, _ => []
  | _ + 1, [] => []
  | fuel + 1, c :: rest =>
    if c = '{' then
      let run := rest.takeWhile (fun d => d ≠ '{' ∧ d ≠ '}')
      match rest.dropWhile (fun d => d ≠ '{' ∧ d ≠ '}') with
      | '}' :: tail => ('{' :: run ++ ['}']) :: candFind fuel tail
      | rest2 => candFind fuel rest2
    else candFind fuel rest

/-- The last-resort candidate loop (`gemini_service.py:344-356`): each
candidate gets the two trailing-comma repairs and the first one that
parses is returned. -/
def candLoop : List (List Char) → Option Json
  | [] => none
  | cand :: rest =>
    let fixedA := fixCommaBrace (cand.length + 1) cand
    let fixedB := fixCommaBracket (fixedA.length + 1) fixedA
    match jsonLoadsL fixedB with
    | some p => some p
    | none => candLoop rest

/-- Error message raised when every parsing strategy fails
(`gemini_service.py:360-364`). -/
def parseFailMsg (responseText : List Char) : String :=
  "Could not extract valid JSON from Gemini response. Response preview: " ++
  String.mk (responseText.take 200) ++
  "... Please check the server logs for the full response."

/-- Acceptance test of the manual field-extraction stage
(`gemini_service.py:335-337`): the stage's dict is returned exactly
when it is non-empty (`if result: return result`). -/
def manualStage (js : List Char) : Option Json :=
  match manualFields js with
  | [] => none
  | kvs => some (.obj kvs)

/-- The brace-matched extraction with repair plus the manual
field-extraction fallback (`gemini_service.py:241-339`), entered only
when the text contains `'{'`: drop everything before the first brace,
cut at the matching close or repair the truncation, apply the comma
fixes, then parse; on failure fall back to manual extraction. -/
def braceStage (text : List Char) : Option Json :=
  if text.any (· = '{') then
    let js0 := text.dropWhile (· ≠ '{')
    let js1 :=
      match scanJsonEnd js0 0 false false 0 with
      | some jsonEnd => js0.take jsonEnd
      | none => repairTrunc js0
    let js2 := commaFixes js1
    match jsonLoadsL js2 with
    | some p => some p
    | none => manualStage js2
  else none

/-- `parse_gemini_response` (`gemini_service.py:181-368`): the ordered
cascade — conversational stripping, direct parse, fenced-block
extraction, brace-matched extraction with repair, manual field
extraction, brute-force candidate scan — with the typed failure
carrying a bounded preview of the original reply. -/
def parse_gemini_response (response_text : String) : Except String Json :=
  let text := stripConversational response_text.toList
  match jsonLoadsL text with
  | some parsed => .ok parsed
  | none =>
    let fenced :=
      match fencedScan (text.length + 1) text with
      | some inner => jsonLoadsL (pyStripL inner)
      | none => none
    match fenced with
    | some parsed => .ok parsed
    | none =>
      match braceStage text with
      | some parsed => .ok parsed
      | none =>
        match candLoop (candFind (text.length + 1) text) with
        | some parsed => .ok parsed
        | none => .error (parseFailMsg response_text.toList)

/-- Lower-case ASCII letters: the word alphabet of the truncated-reply
family used for claim C3. -/
def lowAl (c : Char) : Bool :=
  decide (97 ≤ c.toNat ∧ c.toNat ≤ 122)

/-- Literal segment of the truncated-reply family before `summary`'s
value. -/
def litA : List Char := "\x7b\"summary\": \"".toList

/-- Literal segment between the `summary` and `mermaid_code` values. -/
def litB : List Char := "\", \"mermaid_code\": \"".toList

/-- Literal segment between the `mermaid_code` value and the first
array element. -/
def litC : List Char := "\", \"detected_issues\": [\"".toList

/-- Literal segment between the first, complete array element and the
truncated second element. -/
def litD : List Char := "\", \"".toList

/-- The truncated-reply family for claim C3: a JSON object cut off
mid-way through the second element of `detected_issues`, after one
complete quoted element, with the fields of the prompt's required
format in order. -/
def truncReply (s m a b : List Char) : List Char :=
  litA ++ s ++ litB ++ m ++ litC ++ a ++ litD ++ b

/-- Characters that a JSON string body consumes as-is: not a quote,
not a backslash, not a control character. -/
def strPlain (c : Char) : Prop :=
  c ≠ '"' ∧ c ≠ '\\' ∧ 32 ≤ c.toNat

instance decStrPlain (c : Char) : Decidable (strPlain c) := by
  unfold strPlain
  infer_instance

/-! ## Supporting lemmas -/

theorem dropWhile_length_le (p : Char → Bool) (l : List Char) :
    (l.dropWhile p).length ≤ l.length := by
  induction l with
  | nil => exact le_refl _
  | cons c cs ih =>
    simp only [List.dropWhile]
    split
    · exact Nat.le_succ_of_le ih
    · exact le_refl _

theorem rsplitDotHead_length_le (l : List Char) :
    (rsplitDotHead l).length ≤ l.length := by
  unfold rsplitDotHead
  cases h : l.reverse.dropWhile (· ≠ '.') with
  | nil => exact le_refl _
  | cons c before =>
    have h1 : (l.reverse.dropWhile (· ≠ '.')).length ≤ l.reverse.length :=
      dropWhile_length_le _ _
    rw [h] at h1
    simp only [List.length_cons, List.length_reverse] at h1
    simp only [List.length_reverse]
    omega

theorem lowAl_ne {c : Char} (h : lowAl c = true) (d : Char)
    (hd : ¬(97 ≤ d.toNat ∧ d.toNat ≤ 122)) : c ≠ d := by
  intro he
  subst he
  simp only [lowAl, decide_eq_true_eq] at h
  exact hd h

theorem lowAl_not_pyWs {c : Char} (h : lowAl c = true) : isPyWs c = false := by
  have h1 := lowAl_ne h ' ' (by decide)
  have h2 := lowAl_ne h '\t' (by decide)
  have h3 := lowAl_ne h '\n' (by decide)
  have h4 := lowAl_ne h '\r' (by decide)
  have h5 := lowAl_ne h '\x0b' (by decide)
  have h6 := lowAl_ne h '\x0c' (by decide)
  simp [isPyWs, h1, h2, h3, h4, h5, h6]

theorem lowAl_not_jsonWs {c : Char} (h : lowAl c = true) : isJsonWs c = false := by
  have h1 := lowAl_ne h ' ' (by decide)
  have h2 := lowAl_ne h '\t' (by decide)
  have h3 := lowAl_ne h '\n' (by decide)
  have h4 := lowAl_ne h '\r' (by decide)
  simp [isJsonWs, h1, h2, h3, h4]

theorem sublist_all {l1 l2 : List Char} (h : List.Sublist l1 l2)
    {p : Char → Bool} (h2 : l2.all p) : l1.all p := by
  simp only [List.all_eq_true] at *
  intro c hc
  exact h2 c (h.subset hc)

theorem takeWhile_append_all {p : Char → Bool} {l1 : List Char}
    (h : ∀ c ∈ l1, p c = true) (l2 : List Char) :
    List.takeWhile p (l1 ++ l2) = l1 ++ List.takeWhile p l2 := by
  induction l1 with
  | nil => simp
  | cons c cs ih =>
    simp only [List.cons_append, List.takeWhile_cons,
      h c (List.mem_cons_self c cs)]
    rw [ih (fun d hd => h d (List.mem_cons_of_mem c hd))]
    simp

theorem dropWhile_append_all {p : Char → Bool} {l1 : List Char}
    (h : ∀ c ∈ l1, p c = true) (l2 : List Char) :
    List.dropWhile p (l1 ++ l2) = List.dropWhile p l2 := by
  induction l1 with
  | nil => simp
  | cons c cs ih =>
    simp only [List.cons_append, List.dropWhile_cons,
      h c (List.mem_cons_self c cs)]
    exact ih (fun d hd => h d (List.mem_cons_of_mem c hd))

theorem countC_append (l1 l2 : List Char) (c : Char) :
    countC (l1 ++ l2) c = countC l1 c + countC l2 c :=
  List.countP_append _ _ _

theorem countC_eq_zero {l : List Char} {c : Char}
    (h : ∀ d ∈ l, d ≠ c) : countC l c = 0 := by
  rw [countC, List.countP_eq_zero]
  intro d hd
  simpa using h d hd

theorem findIdxC_append {x : List Char} {c : Char}
    (h : ∀ d ∈ x, d ≠ c) (y : List Char) :
    ∀ i, findIdxC (x ++ y) c i = findIdxC y c (i + x.length) := by
  induction x with
  | nil => intro i; simp [findIdxC]
  | cons d ds ih =>
    intro i
    have hd : d ≠ c := h d (List.mem_cons_self d ds)
    simp only [List.cons_append, findIdxC, if_neg hd, List.append_eq]
    rw [ih (fun e he => h e (List.mem_cons_of_mem d he)) (i + 1)]
    congr 1
    simp only [List.length_cons]
    omega

theorem lowAl_strPlain {c : Char} (h : lowAl c = true) : strPlain c :=
  ⟨lowAl_ne h '"' (by decide), lowAl_ne h '\\' (by decide), by
    simp only [lowAl, decide_eq_true_eq] at h
    omega⟩

theorem jsonStrBody_closes {body : List Char} (h : ∀ c ∈ body, strPlain c) :
    ∀ (fuel : Nat) (rest acc : List Char), fuel ≥ body.length + 1 →
      jsonStrBody fuel (body ++ '"' :: rest) acc =
        some (acc.reverse ++ body, rest) := by
  induction body with
  | nil =>
    intro fuel rest acc hf
    cases fuel with
    | zero => omega
    | succ f => simp [jsonStrBody]
  | cons c cs ih =>
    intro fuel rest acc hf
    cases fuel with
    | zero => omega
    | succ f =>
      obtain ⟨h1, h2, h3⟩ := h c (List.mem_cons_self c cs)
      simp only [List.cons_append, jsonStrBody, if_neg h1, if_neg h2,
        if_neg (by omega : ¬ c.toNat < 32), List.append_eq]
      rw [ih (fun d hd => h d (List.mem_cons_of_mem c hd)) f rest (c :: acc)
        (by simp only [List.length_cons] at hf; omega)]
      simp

theorem jsonStrBody_none {body : List Char} (h : ∀ c ∈ body, strPlain c) :
    ∀ (fuel : Nat) (acc : List Char), jsonStrBody fuel body acc = none := by
  induction body with
  | nil => intro fuel acc; cases fuel <;> rfl
  | cons c cs ih =>
    intro fuel acc
    cases fuel with
    | zero => rfl
    | succ f =>
      obtain ⟨h1, h2, h3⟩ := h c (List.mem_cons_self c cs)
      simp only [jsonStrBody, if_neg h1, if_neg h2,
        if_neg (by omega : ¬ c.toNat < 32)]
      exact ih (fun d hd => h d (List.mem_cons_of_mem c hd)) f (c :: acc)

theorem jsonVal_succ (f : Nat) (l : List Char) :
    jsonVal (f + 1) l =
      match l.dropWhile isJsonWs with
      | [] => none
      | c :: rest =>
        if c = '{' then
          let r2 := rest.dropWhile isJsonWs
          if r2.head? = some '}' then some (.obj [], r2.tail)
          else jsonMembers f r2 []
        else if c = '[' then
          let r2 := rest.dropWhile isJsonWs
          if r2.head? = some ']' then some (.arr [], r2.tail)
          else jsonElems f r2 []
        else if c = '"' then
          match jsonStrBody (rest.length + 1) rest [] with
          | some (s, r2) => some (.str (String.mk s), r2)
          | none => none
        else if ['t', 'r', 'u', 'e'].isPrefixOf (c :: rest) then
          some (.bool true, (c :: rest).drop 4)
        else if ['f', 'a', 'l', 's', 'e'].isPrefixOf (c :: rest) then
          some (.bool false, (c :: rest).drop 5)
        else if ['n', 'u', 'l', 'l'].isPrefixOf (c :: rest) then
          some (.null, (c :: rest).drop 4)
        else
          match jsonNum (c :: rest) with
          | some (lx, r2) => some (.num (String.mk lx), r2)
          | none => none := rfl

theorem jsonMembers_succ (f : Nat) (rest : List Char)
    (acc : List (String × Json)) :
    jsonMembers (f + 1) ('"' :: rest) acc =
      match jsonStrBody (rest.length + 1) rest [] with
      | some (k, r2) =>
        match r2.dropWhile isJsonWs with
        | ':' :: r3 =>
          match jsonVal f r3 with
          | some (v, r4) =>
            match r4.dropWhile isJsonWs with
            | ',' :: r5 =>
              jsonMembers f (r5.dropWhile isJsonWs)
                (acc ++ [(String.mk k, v)])
            | '}' :: r5 => some (.obj (acc ++ [(String.mk k, v)]), r5)
            | _ => none
          | none => none
        | _ => none
      | none => none := rfl

theorem jsonElems_succ (f : Nat) (l : List Char) (acc : List Json) :
    jsonElems (f + 1) l acc =
      match jsonVal f l with
      | some (v, r2) =>
        match r2.dropWhile isJsonWs with
        | ',' :: r3 => jsonElems f r3 (acc ++ [v])
        | ']' :: r3 => some (.arr (acc ++ [v]), r3)
        | _ => none
      | none => none := rfl

theorem member_stepS (key v rest2 : List Char)
    (hkey : ∀ c ∈ key, strPlain c) (hv : ∀ c ∈ v, strPlain c)
    (f : Nat) (acc : List (String × Json)) :
    jsonMembers (f + 2)
        ('"' :: (key ++ '"' :: ':' :: ' ' :: '"' ::
          (v ++ '"' :: ',' :: ' ' :: '"' :: rest2))) acc =
      jsonMembers (f + 1) ('"' :: rest2)
        (acc ++ [(String.mk key, Json.str (String.mk v))]) := by
  rw [show f + 2 = (f + 1) + 1 from rfl, jsonMembers_succ]
  rw [jsonStrBody_closes hkey _ _ _ (by simp)]
  simp only []
  rw [List.dropWhile_cons, if_neg (by simp [isJsonWs])]
  simp only []
  rw [jsonVal_succ]
  rw [show ((' ' :: '"' :: (v ++ '"' :: ',' :: ' ' :: '"' :: rest2)).dropWhile
      isJsonWs) = '"' :: (v ++ '"' :: ',' :: ' ' :: '"' :: rest2) by
    rw [List.dropWhile_cons, if_pos (by simp [isJsonWs]),
      List.dropWhile_cons, if_neg (by simp [isJsonWs])]]
  simp only []
  simp only [if_true]
  rw [jsonStrBody_closes hv _ _ _ (by simp)]
  rw [if_neg (by decide), if_neg (by decide)]
  simp only []
  rw [List.dropWhile_cons, if_neg (by simp [isJsonWs])]
  simp only []
  rw [List.dropWhile_cons, if_pos (by simp [isJsonWs]),
    List.dropWhile_cons, if_neg (by simp [isJsonWs])]
  simp

theorem member_arr_none (key a btl : List Char)
    (hkey : ∀ c ∈ key, strPlain c) (ha : ∀ c ∈ a, strPlain c)
    (hbtl : ∀ c ∈ btl, strPlain c) :
    ∀ (f : Nat) (acc : List (String × Json)),
      jsonMembers f ('"' :: (key ++ '"' :: ':' :: ' ' :: '[' :: '"' ::
        (a ++ '"' :: ',' :: ' ' :: '"' :: btl))) acc = none := by
  intro f acc
  cases f with
  | zero => rfl
  | succ f =>
    rw [jsonMembers_succ]
    rw [jsonStrBody_closes hkey _ _ _ (by simp)]
    simp only []
    rw [List.dropWhile_cons, if_neg (by simp [isJsonWs])]
    simp only []
    cases f with
    | zero => rfl
    | succ g =>
      rw [jsonVal_succ]
      rw [show ((' ' :: '[' :: '"' ::
          (a ++ '"' :: ',' :: ' ' :: '"' :: btl)).dropWhile isJsonWs)
          = '[' :: '"' :: (a ++ '"' :: ',' :: ' ' :: '"' :: btl) by
        rw [List.dropWhile_cons, if_pos (by simp [isJsonWs]),
          List.dropWhile_cons, if_neg (by simp [isJsonWs])]]
      simp only []
      simp only [if_true]
      rw [if_neg (by decide)]
      rw [show List.dropWhile isJsonWs
          ('"' :: (a ++ '"' :: ',' :: ' ' :: '"' :: btl)) =
          '"' :: (a ++ '"' :: ',' :: ' ' :: '"' :: btl) by
        rw [List.dropWhile_cons, if_neg (by simp [isJsonWs])]]
      rw [if_neg (by simp)]
      cases g with
      | zero => rfl
      | succ h =>
        rw [jsonElems_succ]
        cases h with
        | zero => rfl
        | succ i =>
          rw [jsonVal_succ]
          rw [List.dropWhile_cons, if_neg (by simp [isJsonWs])]
          simp only []
          simp only [if_true]
          rw [jsonStrBody_closes ha _ _ _ (by simp)]
          rw [if_neg (by decide), if_neg (by decide)]
          simp only []
          rw [List.dropWhile_cons, if_neg (by simp [isJsonWs])]
          simp only []
          rw [jsonElems_succ]
          cases i with
          | zero => rfl
          | succ j =>
            rw [jsonVal_succ]
            rw [show ((' ' :: '"' :: btl).dropWhile isJsonWs)
                = '"' :: btl by
              rw [List.dropWhile_cons, if_pos (by simp [isJsonWs]),
                List.dropWhile_cons, if_neg (by simp [isJsonWs])]]
            simp only []
            simp only [if_true]
            rw [jsonStrBody_none hbtl]
            rw [if_neg (by decide), if_neg (by decide)]

theorem val_open_obj (F : Nat) (R : List Char) :
    jsonVal (F + 1) ('{' :: '"' :: R) = jsonMembers F ('"' :: R) [] := by
  rw [jsonVal_succ]
  rw [show List.dropWhile isJsonWs ('{' :: '"' :: R) = '{' :: '"' :: R by
    rw [List.dropWhile_cons, if_neg (by simp [isJsonWs])]]
  simp only []
  simp only [if_true]
  rw [show List.dropWhile isJsonWs ('"' :: R) = '"' :: R by
    rw [List.dropWhile_cons, if_neg (by simp [isJsonWs])]]
  rw [if_neg (by simp)]

theorem loads_truncReply_none (s m a b tl : List Char)
    (hs : ∀ c ∈ s, strPlain c) (hm : ∀ c ∈ m, strPlain c)
    (ha : ∀ c ∈ a, strPlain c) (hbtl : ∀ c ∈ b ++ tl, strPlain c) :
    jsonLoadsL (truncReply s m a b ++ tl) = none := by
  have hA : litA = '{' :: '"' :: ("summary".toList ++ ['"', ':', ' ', '"']) := rfl
  have hB : litB = '"' :: ',' :: ' ' :: '"' ::
      ("mermaid_code".toList ++ ['"', ':', ' ', '"']) := rfl
  have hC : litC = '"' :: ',' :: ' ' :: '"' ::
      ("detected_issues".toList ++ ['"', ':', ' ', '[', '"']) := rfl
  have hD : litD = '"' :: ',' :: ' ' :: '"' :: [] := rfl
  have hshape : truncReply s m a b ++ tl =
      '{' :: '"' :: ("summary".toList ++ '"' :: ':' :: ' ' :: '"' ::
        (s ++ '"' :: ',' :: ' ' :: '"' ::
          ("mermaid_code".toList ++ '"' :: ':' :: ' ' :: '"' ::
            (m ++ '"' :: ',' :: ' ' :: '"' ::
              ("detected_issues".toList ++ '"' :: ':' :: ' ' :: '[' :: '"' ::
                (a ++ '"' :: ',' :: ' ' :: '"' :: (b ++ tl))))))) := by
    simp [truncReply, hA, hB, hC, hD, List.append_assoc]
  rw [hshape]
  unfold jsonLoadsL
  rw [val_open_obj]
  simp only [List.length_cons]
  generalize hG : ("summary".toList ++ '"' :: ':' :: ' ' :: '"' ::
      (s ++ '"' :: ',' :: ' ' :: '"' ::
        ("mermaid_code".toList ++ '"' :: ':' :: ' ' :: '"' ::
          (m ++ '"' :: ',' :: ' ' :: '"' ::
            ("detected_issues".toList ++ '"' :: ':' :: ' ' :: '[' :: '"' ::
              (a ++ '"' :: ',' :: ' ' :: '"' :: (b ++ tl))))))).length = n
  have h7 : ("summary".toList).length = 7 := rfl
  have h12 : ("mermaid_code".toList).length = 12 := rfl
  have h15 : ("detected_issues".toList).length = 15 := rfl
  have hn : 6 ≤ n := by
    simp only [List.length_append, List.length_cons, h7, h12, h15] at hG
    omega
  obtain ⟨k, rfl⟩ : ∃ k, n = k + 6 := ⟨n - 6, by omega⟩
  rw [show k + 6 + 1 + 1 = (k + 6) + 2 from rfl]
  rw [member_stepS _ _ _ (by decide) hs]
  rw [show k + 6 + 1 = (k + 5) + 2 from rfl]
  rw [member_stepS _ _ _ (by decide) hm]
  rw [member_arr_none _ _ _ (by decide) ha hbtl]

theorem truncReply_forall {s m a b : List Char} {P : Char → Prop}
    (hA : ∀ c ∈ litA, P c) (hB : ∀ c ∈ litB, P c)
    (hC : ∀ c ∈ litC, P c) (hD : ∀ c ∈ litD, P c)
    (hs : ∀ c ∈ s, P c) (hm : ∀ c ∈ m, P c)
    (ha : ∀ c ∈ a, P c) (hb : ∀ c ∈ b, P c) :
    ∀ c ∈ truncReply s m a b, P c := by
  intro c hc
  simp only [truncReply, List.mem_append] at hc
  rcases hc with ((((((h1 | h2) | h3) | h4) | h5) | h6) | h7) | h8
  · exact hA c h1
  · exact hs c h2
  · exact hB c h3
  · exact hm c h4
  · exact hC c h5
  · exact ha c h6
  · exact hD c h7
  · exact hb c h8

theorem all_lowAl_forall {l : List Char} (h : l.all lowAl = true) :
    ∀ c ∈ l, lowAl c = true := by
  intro c hc
  exact List.all_eq_true.mp h c hc

theorem fencedScan_none : ∀ (fuel : Nat) (l : List Char),
    (∀ c ∈ l, c ≠ btick) → fencedScan fuel l = none := by
  intro fuel
  induction fuel with
  | zero => intro l _; rfl
  | succ f ih =>
    intro l h
    cases l with
    | nil => rfl
    | cons c rest =>
      have hc : c ≠ btick := h c (List.mem_cons_self c rest)
      simp only [fencedScan, if_neg hc]
      exact ih rest (fun d hd => h d (List.mem_cons_of_mem c hd))

theorem scanJsonEnd_none : ∀ (l : List Char),
    (∀ c ∈ l, c ≠ '}') →
    ∀ (bc : Int) (inS esc : Bool) (i : Nat),
      scanJsonEnd l bc inS esc i = none := by
  intro l
  induction l with
  | nil => intro _ bc inS esc i; rfl
  | cons c rest ih =>
    intro h bc inS esc i
    have hc : c ≠ '}' := h c (List.mem_cons_self c rest)
    have hrest := fun d hd => h d (List.mem_cons_of_mem c hd)
    simp only [scanJsonEnd]
    split_ifs <;> exact ih hrest _ _ _ _

theorem arrTryAt_no_bracket (lit l : List Char) (h : l.all (· ≠ ']')) :
    arrTryAt lit l = none := by
  unfold arrTryAt
  split
  · split
    · split
      · rename_i x1 r2 heq1 x2 r3 heq2
        · have s1 : List.Sublist r2 l := by
            have : List.Sublist (':' :: r2) l := by
              rw [← heq1]
              exact (List.dropWhile_sublist _).trans (List.drop_sublist _ _)
            exact (List.sublist_cons_self ':' r2).trans this
          have s2 : List.Sublist r3 r2 := by
            have : List.Sublist ('[' :: r3) r2 := by
              rw [← heq2]
              exact List.dropWhile_sublist _
            exact (List.sublist_cons_self '[' r3).trans this
          have hr3 : r3.all (· ≠ ']') := sublist_all (s2.trans s1) h
          have : r3.any (· = ']') = false := by
            simp only [List.all_eq_true] at hr3
            simp only [List.any_eq_false]
            intro c hc
            simpa using hr3 c hc
          simp [this]
      · rfl
    · rfl
  · rfl

theorem arrSearch_no_bracket (lit : List Char) :
    ∀ (fuel : Nat) (l : List Char), l.all (· ≠ ']') →
      arrSearch lit fuel l = none := by
  intro fuel
  induction fuel with
  | zero => intro l _; rfl
  | succ f ih =>
    intro l h
    cases l with
    | nil => rfl
    | cons c rest =>
      have hrest : rest.all (· ≠ ']') :=
        sublist_all (List.sublist_cons_self c rest) h
      simp only [arrSearch, arrTryAt_no_bracket _ _ h]
      exact ih rest hrest

/-- Without a `']'` anywhere in the candidate text, the manual
extraction stage cannot produce a `detected_issues` entry: the
array-extraction pattern demands a closing bracket. -/
theorem manualFields_no_bracket (js : List Char) (h : js.all (· ≠ ']')) :
    pyGet (manualFields js) "detected_issues" = none := by
  unfold manualFields
  rw [arrSearch_no_bracket _ _ _ h, arrSearch_no_bracket _ _ _ h]
  cases fieldSearch "\"summary\"".toList (js.length + 1) js <;>
    cases fieldSearch "\"mermaid_code\"".toList (js.length + 1) js <;>
      simp [pyGet]

theorem dropWhile_id_of_head {l : List Char} {c : Char}
    (h : l.head? = some c) (hc : isPyWs c = false) :
    l.dropWhile isPyWs = l := by
  cases l with
  | nil => simp at h
  | cons a rest =>
    simp only [List.head?_cons, Option.some.injEq] at h
    subst h
    simp [List.dropWhile, hc]

theorem pyStripL_id {l : List Char} {c d : Char}
    (h1 : l.head? = some c) (hc : isPyWs c = false)
    (h2 : l.getLast? = some d) (hd : isPyWs d = false) :
    pyStripL l = l := by
  unfold pyStripL
  rw [dropWhile_id_of_head h1 hc]
  rw [dropWhile_id_of_head (by rwa [List.head?_reverse]) hd]
  exact List.reverse_reverse l

theorem ciLit_cons_ne (p c : Char) (ps rest : List Char)
    (h : ciEq c p = false) : ciLit (p :: ps) (c :: rest) = none := by
  simp [ciLit, h]

theorem stripLeads_brace (rest : List Char) :
    stripLeads ('{' :: rest) = '{' :: rest := rfl

theorem stripTail_noDot {l : List Char} (h : ∀ c ∈ l, c ≠ '.') :
    ∀ fuel, stripTail fuel l = l := by
  induction l with
  | nil => intro fuel; cases fuel <;> rfl
  | cons c rest ih =>
    intro fuel
    cases fuel with
    | zero => rfl
    | succ f =>
      have hc : c ≠ '.' := h c (List.mem_cons_self c rest)
      simp only [stripTail, if_neg hc]
      rw [ih (fun d hd => h d (List.mem_cons_of_mem c hd)) f]

/-- Syntactic conditions under which the conversational stripping
prologue leaves a reply unchanged: it starts with `'{'`, ends with a
non-whitespace character, and contains no `'.'`. -/
theorem stripConversational_id {l : List Char} {d : Char}
    (hhead : l.head? = some '{')
    (hlast : l.getLast? = some d) (hd : isPyWs d = false)
    (hdot : ∀ c ∈ l, c ≠ '.') :
    stripConversational l = l := by
  have hstrip : pyStripL l = l := pyStripL_id hhead rfl hlast hd
  obtain ⟨rest, hrest⟩ : ∃ rest, l = '{' :: rest := by
    cases l with
    | nil => simp at hhead
    | cons a r =>
      simp only [List.head?_cons, Option.some.injEq] at hhead
      exact ⟨r, by rw [hhead]⟩
  subst hrest
  show pyStripL (stripTail ((stripLeads (pyStripL ('{' :: rest))).length + 1)
      (stripLeads (pyStripL ('{' :: rest)))) = '{' :: rest
  rw [hstrip, stripLeads_brace, stripTail_noDot hdot, hstrip]

theorem countC_lowAl_zero {l : List Char} (h : l.all lowAl = true) {d : Char}
    (hd : ¬(97 ≤ d.toNat ∧ d.toNat ≤ 122)) : countC l d = 0 :=
  countC_eq_zero (fun c hc => lowAl_ne (all_lowAl_forall h c hc) d hd)

theorem rstripL_id {l : List Char} {d : Char}
    (h2 : l.getLast? = some d) (hd : isPyWs d = false) :
    rstripL l = l := by
  unfold rstripL
  rw [dropWhile_id_of_head (by rwa [List.head?_reverse]) hd,
    List.reverse_reverse]

theorem rfindC_append_last {A b : List Char} {ch : Char}
    (h : ∀ c ∈ b, c ≠ ch) :
    rfindC (A ++ ch :: b) ch = some A.length := by
  unfold rfindC
  have hrev : (A ++ ch :: b).reverse = b.reverse ++ (ch :: A.reverse) := by
    rw [List.reverse_append, List.reverse_cons, List.append_assoc]
    rfl
  rw [hrev, findIdxC_append (fun c hc => h c (by simpa using hc)) _ 0]
  have hfi : findIdxC (ch :: A.reverse) ch (0 + b.reverse.length) =
      some (0 + b.reverse.length) := by
    simp [findIdxC]
  rw [hfi]
  simp only []
  simp only [List.length_append, List.length_cons, List.length_reverse,
    Nat.zero_add, Option.some.injEq]
  omega

/-- The truncated-reply family gets the best-effort closure of
`gemini_service.py:274-293`: one missing closing brace is appended and
nothing else changes (the quote count before the last quote is even,
so the unterminated-string heuristic stays idle). -/
theorem repairTrunc_truncReply (s m a b : List Char)
    (hs : s.all lowAl = true) (hm : m.all lowAl = true)
    (ha : a.all lowAl = true) (hb : b.all lowAl = true) (hbne : b ≠ []) :
    repairTrunc (truncReply s m a b) = truncReply s m a b ++ ['}'] := by
  have hlastb : b.getLast? = some (b.getLast hbne) :=
    List.getLast?_eq_getLast b hbne
  have hdlow : lowAl (b.getLast hbne) = true :=
    all_lowAl_forall hb _ (List.getLast_mem hbne)
  have hlast : (truncReply s m a b).getLast? = some (b.getLast hbne) := by
    rw [truncReply, List.getLast?_append_of_ne_nil _ hbne]
    exact hlastb
  have hrs : rstripL (truncReply s m a b) = truncReply s m a b :=
    rstripL_id hlast (lowAl_not_pyWs hdlow)
  have hcb : countC (truncReply s m a b) '{' = 1 := by
    simp only [truncReply, countC_append]
    rw [show countC litA '{' = 1 from rfl, show countC litB '{' = 0 from rfl,
      show countC litC '{' = 0 from rfl, show countC litD '{' = 0 from rfl,
      countC_lowAl_zero hs (by decide), countC_lowAl_zero hm (by decide),
      countC_lowAl_zero ha (by decide), countC_lowAl_zero hb (by decide)]
  have hcc : countC (truncReply s m a b) '}' = 0 := by
    simp only [truncReply, countC_append]
    rw [show countC litA '}' = 0 from rfl, show countC litB '}' = 0 from rfl,
      show countC litC '}' = 0 from rfl, show countC litD '}' = 0 from rfl,
      countC_lowAl_zero hs (by decide), countC_lowAl_zero hm (by decide),
      countC_lowAl_zero ha (by decide), countC_lowAl_zero hb (by decide)]
  have hlastIs : ∀ (d : Char), ¬(97 ≤ d.toNat ∧ d.toNat ≤ 122) →
      lastIs (truncReply s m a b) d = false := by
    intro d hd
    rw [lastIs, hlast]
    simp [lowAl_ne hdlow d hd]
  have hquote : (truncReply s m a b).any (· = '"') = true := by
    simp only [List.any_eq_true]
    refine ⟨'"', ?_, by simp⟩
    simp [truncReply, litA]
  have hdecomp : truncReply s m a b =
      (litA ++ s ++ litB ++ m ++ litC ++ a ++ ['"', ',', ' ']) ++ '"' :: b := by
    rw [truncReply, show litD = ['"', ',', ' '] ++ ['"'] from rfl]
    simp [List.append_assoc]
  have hfind : rfindC (truncReply s m a b) '"' =
      some (litA ++ s ++ litB ++ m ++ litC ++ a ++ ['"', ',', ' ']).length := by
    rw [hdecomp]
    exact rfindC_append_last
      (fun c hc => lowAl_ne (all_lowAl_forall hb c hc) '"' (by decide))
  have htake : List.take
      (litA ++ s ++ litB ++ m ++ litC ++ a ++ ['"', ',', ' ']).length
      (truncReply s m a b) =
      litA ++ s ++ litB ++ m ++ litC ++ a ++ ['"', ',', ' '] := by
    rw [hdecomp]
    exact List.take_left _ _
  have hcq : countC
      (litA ++ s ++ litB ++ m ++ litC ++ a ++ ['"', ',', ' ']) '"' = 12 := by
    simp only [countC_append]
    rw [show countC litA '"' = 3 from rfl, show countC litB '"' = 4 from rfl,
      show countC litC '"' = 4 from rfl,
      show countC ['"', ',', ' '] '"' = 1 from rfl,
      countC_lowAl_zero hs (by decide), countC_lowAl_zero hm (by decide),
      countC_lowAl_zero ha (by decide)]
  simp only [repairTrunc]
  rw [hrs, hrs, hlastIs (Char.ofNat 125) (by decide)]
  rw [if_neg (by decide)]
  rw [hcb, hcc]
  rw [if_pos (by decide)]
  rw [hlastIs (Char.ofNat 44) (by decide)]
  simp only [Bool.false_eq_true, if_false]
  rw [hrs, hlastIs (Char.ofNat 34) (by decide)]
  rw [if_pos ⟨hquote, by decide⟩]
  rw [hfind]
  simp only []
  rw [htake, hcq]
  rw [if_neg (show ¬(12 % 2 = 1) by decide), ite_self]
  rfl

theorem commaOk_cons_ne {c : Char} (h : c ≠ ',') (l : List Char) :
    commaOk (c :: l) = commaOk l := by
  simp [commaOk, if_neg h]

theorem commaOk_comma {l : List Char}
    (h : (l.dropWhile isPyWs).head? = some '"') :
    commaOk (',' :: l) = commaOk l := by
  simp [commaOk, h]

theorem commaOk_append_nocomma {X : List Char} (h : ∀ c ∈ X, c ≠ ',')
    (Y : List Char) : commaOk (X ++ Y) = commaOk Y := by
  induction X with
  | nil => rfl
  | cons c rest ih =>
    rw [List.cons_append, commaOk_cons_ne (h c (List.mem_cons_self c rest)),
      ih (fun d hd => h d (List.mem_cons_of_mem c hd))]

theorem lowAl_nocomma {l : List Char} (h : l.all lowAl = true) :
    ∀ c ∈ l, c ≠ ',' :=
  fun c hc => lowAl_ne (all_lowAl_forall h c hc) ',' (by decide)

theorem commaOk_sep (T Y : List Char) (hT : ∀ c ∈ T, c ≠ ',') :
    commaOk (('"' :: ',' :: ' ' :: '"' :: T) ++ Y) = commaOk Y := by
  rw [List.cons_append, List.cons_append, commaOk_cons_ne (by decide),
    commaOk_comma (l := (' ' :: '"' :: T) ++ Y) (by rfl),
    List.cons_append, List.cons_append,
    commaOk_cons_ne (by decide), commaOk_cons_ne (by decide),
    commaOk_append_nocomma hT]

theorem commaOk_litB (Y : List Char) : commaOk (litB ++ Y) = commaOk Y := by
  rw [show litB ++ Y =
    ('"' :: ',' :: ' ' :: '"' :: "mermaid_code\": \"".toList) ++ Y from rfl,
    commaOk_sep "mermaid_code\": \"".toList Y (by decide)]

theorem commaOk_litC (Y : List Char) : commaOk (litC ++ Y) = commaOk Y := by
  rw [show litC ++ Y =
    ('"' :: ',' :: ' ' :: '"' :: "detected_issues\": [\"".toList) ++ Y from rfl,
    commaOk_sep "detected_issues\": [\"".toList Y (by decide)]

theorem commaOk_litD (Y : List Char) : commaOk (litD ++ Y) = commaOk Y := by
  rw [show litD ++ Y = ('"' :: ',' :: ' ' :: '"' :: []) ++ Y from rfl,
    commaOk_sep [] Y (by decide)]

theorem fixCommaBrace_commaOk (l : List Char) :
    commaOk l = true → ∀ fuel, fixCommaBrace fuel l = l := by
  induction l with
  | nil => intro _ fuel; cases fuel <;> rfl
  | cons c rest ih =>
    intro h fuel
    cases fuel with
    | zero => rfl
    | succ f =>
      simp only [commaOk, Bool.and_eq_true] at h
      by_cases hc : c = ','
      · subst hc
        rw [if_pos rfl] at h
        have hd : (rest.dropWhile isPyWs).head? = some '"' :=
          of_decide_eq_true h.1
        simp only [fixCommaBrace, hd]
        rw [if_pos trivial,
          if_neg (show ¬((some '"' : Option Char) = some (Char.ofNat 125))
            from by decide),
          ih h.2 f]
      · simp only [fixCommaBrace, if_neg hc]
        rw [ih h.2 f]

theorem fixCommaBracket_commaOk (l : List Char) :
    commaOk l = true → ∀ fuel, fixCommaBracket fuel l = l := by
  induction l with
  | nil => intro _ fuel; cases fuel <;> rfl
  | cons c rest ih =>
    intro h fuel
    cases fuel with
    | zero => rfl
    | succ f =>
      simp only [commaOk, Bool.and_eq_true] at h
      by_cases hc : c = ','
      · subst hc
        rw [if_pos rfl] at h
        have hd : (rest.dropWhile isPyWs).head? = some '"' :=
          of_decide_eq_true h.1
        simp only [fixCommaBracket, hd]
        rw [if_pos trivial,
          if_neg (show ¬((some '"' : Option Char) = some ']') from by decide),
          ih h.2 f]
      · simp only [fixCommaBracket, if_neg hc]
        rw [ih h.2 f]

theorem fixTrailComma_commaOk (l : List Char) :
    commaOk l = true → ∀ fuel, fixTrailComma fuel l = l := by
  induction l with
  | nil => intro _ fuel; cases fuel <;> rfl
  | cons c rest ih =>
    intro h fuel
    cases fuel with
    | zero => rfl
    | succ f =>
      simp only [commaOk, Bool.and_eq_true] at h
      have hcond : ¬(c = ',' ∧ rest.all isPyWs = true) := by
        rintro ⟨rfl, hws⟩
        rw [if_pos rfl] at h
        have hd : (rest.dropWhile isPyWs).head? = some '"' :=
          of_decide_eq_true h.1
        rw [List.dropWhile_eq_nil_iff.mpr
          (fun x hx => by simpa using List.all_eq_true.mp hws x hx)] at hd
        simp at hd
      simp only [fixTrailComma, if_neg hcond]
      rw [ih h.2 f]

theorem commaFixes_commaOk {l : List Char} (h : commaOk l = true) :
    commaFixes l = l := by
  simp only [commaFixes]
  rw [fixCommaBrace_commaOk l h, fixCommaBracket_commaOk l h,
    fixTrailComma_commaOk l h]

theorem commaOk_truncReply {s m a b : List Char}
    (hs : s.all lowAl = true) (hm : m.all lowAl = true)
    (ha : a.all lowAl = true) (hb : b.all lowAl = true) :
    commaOk (truncReply s m a b ++ ['}']) = true := by
  simp only [truncReply, List.append_assoc]
  rw [commaOk_append_nocomma (X := litA) (by decide),
    commaOk_append_nocomma (lowAl_nocomma hs), commaOk_litB,
    commaOk_append_nocomma (lowAl_nocomma hm), commaOk_litC,
    commaOk_append_nocomma (lowAl_nocomma ha), commaOk_litD,
    commaOk_append_nocomma (lowAl_nocomma hb)]
  decide

theorem commaFixes_truncReply {s m a b : List Char}
    (hs : s.all lowAl = true) (hm : m.all lowAl = true)
    (ha : a.all lowAl = true) (hb : b.all lowAl = true) :
    commaFixes (truncReply s m a b ++ ['}']) =
      truncReply s m a b ++ ['}'] :=
  commaFixes_commaOk (commaOk_truncReply hs hm ha hb)

theorem replaceAllL_no_bs (pt rep : List Char) (l : List Char)
    (h : ∀ c ∈ l, c ≠ '\\') : ∀ fuel, replaceAllL ('\\' :: pt) rep fuel l = l := by
  induction l with
  | nil => intro fuel; cases fuel <;> rfl
  | cons c rest ih =>
    intro fuel
    cases fuel with
    | zero => rfl
    | succ f =>
      have hc : c ≠ '\\' := h c (List.mem_cons_self c rest)
      have hneg : ¬(('\\' :: pt) ≠ [] ∧
          ('\\' :: pt).isPrefixOf (c :: rest) = true) := by
        rintro ⟨-, hpre⟩
        simp only [List.isPrefixOf, Bool.and_eq_true, beq_iff_eq] at hpre
        exact hc hpre.1.symm
      simp only [replaceAllL]
      rw [if_neg hneg, ih (fun d hd => h d (List.mem_cons_of_mem c hd)) f]

theorem fieldTryAt_head_ne (lit : List Char) (hlit : lit.head? = some '"')
    {c : Char} (hc : c ≠ '"') (l : List Char) :
    fieldTryAt lit (c :: l) = none := by
  obtain ⟨lt, rfl⟩ : ∃ lt, lit = '"' :: lt := by
    cases lit with
    | nil => simp at hlit
    | cons x lt =>
      simp only [List.head?_cons, Option.some.injEq] at hlit
      exact ⟨lt, by rw [hlit]⟩
  have hpre : (('"' :: lt).isPrefixOf (c :: l)) = false := by
    simp [List.isPrefixOf, beq_eq_false_iff_ne.mpr (Ne.symm hc)]
  rw [fieldTryAt, if_neg (by simp [hpre])]

theorem fieldSearch_step (lit : List Char) (F fuel : Nat) (c : Char)
    (l : List Char) (hF : F = fuel + 1)
    (h : fieldTryAt lit (c :: l) = none) :
    fieldSearch lit F (c :: l) = fieldSearch lit fuel l := by
  subst hF
  simp only [fieldSearch, h]

theorem fieldSearch_hit (lit : List Char) (F fuel : Nat) (c : Char)
    (l cap : List Char) (hF : F = fuel + 1)
    (h : fieldTryAt lit (c :: l) = some cap) :
    fieldSearch lit F (c :: l) = some cap := by
  subst hF
  simp only [fieldSearch, h]

theorem fieldSearch_skip_aux (lit Y : List Char)
    (hlit : lit.head? = some '"') : ∀ (X : List Char),
    (∀ c ∈ X, c ≠ '"') → ∀ fuel,
      fieldSearch lit (fuel + X.length) (X ++ Y) =
      fieldSearch lit fuel Y := by
  intro X
  induction X with
  | nil => intro _ fuel; rfl
  | cons c Xt ih =>
    intro h fuel
    have hc : c ≠ '"' := h c (List.mem_cons_self c Xt)
    rw [show fuel + (c :: Xt).length = (fuel + Xt.length) + 1 from by
      simp only [List.length_cons]; omega]
    rw [List.cons_append]
    rw [fieldSearch_step lit ((fuel + Xt.length) + 1) (fuel + Xt.length)
      c (Xt ++ Y) rfl (fieldTryAt_head_ne lit hlit hc (Xt ++ Y))]
    exact ih (fun d hd => h d (List.mem_cons_of_mem c hd)) fuel

theorem fieldSearch_skip (lit X Y : List Char) (F fuel : Nat)
    (hlit : lit.head? = some '"')
    (hF : F = fuel + X.length) (hX : ∀ c ∈ X, c ≠ '"') :
    fieldSearch lit F (X ++ Y) = fieldSearch lit fuel Y := by
  subst hF
  exact fieldSearch_skip_aux lit Y hlit X hX fuel

theorem under_block (Q : List Char) :
    '_' ∈ Q → Q.all (fun c => lowAl c || decide (c = '_')) = true →
    ∀ (s Y : List Char), s.all lowAl = true →
      Q.isPrefixOf (s ++ '"' :: Y) = false := by
  induction Q with
  | nil => intro hQ _ _ _ _; simp at hQ
  | cons q Qt ih =>
    intro hQ hcl s Y hs
    have hclq : (lowAl q || decide (q = '_')) = true := by
      simp only [List.all_cons, Bool.and_eq_true] at hcl
      exact hcl.1
    have hclt : Qt.all (fun c => lowAl c || decide (c = '_')) = true := by
      simp only [List.all_cons, Bool.and_eq_true] at hcl
      exact hcl.2
    have hqne : q ≠ '"' := by
      cases hor : lowAl q with
      | true => exact lowAl_ne hor '"' (by decide)
      | false =>
        rw [hor] at hclq
        simp only [Bool.false_or, decide_eq_true_eq] at hclq
        subst hclq; decide
    cases s with
    | nil =>
      simp only [List.nil_append]
      simp [List.isPrefixOf, beq_eq_false_iff_ne.mpr hqne]
    | cons c st =>
      simp only [List.cons_append]
      by_cases hq : q = '_'
      · subst hq
        have hcl2 : lowAl c = true :=
          all_lowAl_forall hs c (List.mem_cons_self c st)
        have hne : ('_' : Char) ≠ c := fun h => by
          rw [← h] at hcl2
          exact absurd hcl2 (by decide)
        simp [List.isPrefixOf, beq_eq_false_iff_ne.mpr hne]
      · have hQt : '_' ∈ Qt := by
          rcases List.mem_cons.mp hQ with h | h
          · exact absurd h.symm hq
          · exact h
        have hst : st.all lowAl = true :=
          sublist_all (List.sublist_cons_self c st) hs
        simp [List.isPrefixOf, ih hQt hclt st Y hst]

theorem fieldTryAt_mer_under (s Z : List Char) (hs : s.all lowAl = true) :
    fieldTryAt "\"mermaid_code\"".toList ('"' :: (s ++ '"' :: Z)) = none := by
  have hblock : (['m', 'e', 'r', 'm', 'a', 'i', 'd', '_', 'c', 'o', 'd', 'e']).isPrefixOf (s ++ '"' :: Z) = false :=
    under_block ['m', 'e', 'r', 'm', 'a', 'i', 'd', '_', 'c', 'o', 'd', 'e'] (by decide) (by decide) s Z hs
  have hfull : (['m', 'e', 'r', 'm', 'a', 'i', 'd', '_', 'c', 'o', 'd', 'e', '"']).isPrefixOf (s ++ '"' :: Z) = false := by
    rw [← Bool.not_eq_true]
    intro htrue
    rw [List.isPrefixOf_iff_prefix] at htrue
    have h3 : (['m', 'e', 'r', 'm', 'a', 'i', 'd', '_', 'c', 'o', 'd', 'e']) <+: (['m', 'e', 'r', 'm', 'a', 'i', 'd', '_', 'c', 'o', 'd', 'e', '"']) := ⟨['"'], rfl⟩
    have h2 := List.isPrefixOf_iff_prefix.mpr (h3.trans htrue)
    rw [hblock] at h2
    exact Bool.false_ne_true h2
  have hop : ("\"mermaid_code\"".toList).isPrefixOf ('"' :: (s ++ '"' :: Z)) =
      (['m', 'e', 'r', 'm', 'a', 'i', 'd', '_', 'c', 'o', 'd', 'e', '"']).isPrefixOf (s ++ '"' :: Z) := rfl
  have hneg : ¬(("\"mermaid_code\"".toList).isPrefixOf ('"' :: (s ++ '"' :: Z)) = true) := by
    intro h
    rw [hop, hfull] at h
    exact Bool.false_ne_true h
  rw [fieldTryAt, if_neg hneg]

theorem takeWhile_quote (l Z : List Char) (h : l.all lowAl = true) :
    (l ++ '"' :: Z).takeWhile (· ≠ '"') = l := by
  rw [takeWhile_append_all (fun c hc =>
    decide_eq_true (lowAl_ne (all_lowAl_forall h c hc) '"' (by decide)))]
  simp [List.takeWhile_cons]

theorem any_quote (l Z : List Char) : (l ++ '"' :: Z).any (· = '"') = true :=
  List.any_eq_true.mpr ⟨'"',
    List.mem_append.mpr (Or.inr (List.mem_cons_self _ _)), by decide⟩

theorem fieldTryAt_sum (s Z : List Char) (hs : s.all lowAl = true) :
    fieldTryAt "\"summary\"".toList
      ('"' :: ("summary".toList ++ '"' :: ':' :: ' ' :: '"' :: (s ++ '"' :: Z))) =
      some s := by
  have h1 : fieldTryAt "\"summary\"".toList
      ('"' :: ("summary".toList ++ '"' :: ':' :: ' ' :: '"' :: (s ++ '"' :: Z))) =
      (if (s ++ '"' :: Z).any (· = '"') then
        some ((s ++ '"' :: Z).takeWhile (· ≠ '"')) else none) := rfl
  rw [h1, if_pos (any_quote s Z), takeWhile_quote s Z hs]

theorem fieldTryAt_mer (m Z : List Char) (hm : m.all lowAl = true) :
    fieldTryAt "\"mermaid_code\"".toList
      ('"' :: ("mermaid_code".toList ++ '"' :: ':' :: ' ' :: '"' :: (m ++ '"' :: Z))) =
      some m := by
  have h1 : fieldTryAt "\"mermaid_code\"".toList
      ('"' :: ("mermaid_code".toList ++ '"' :: ':' :: ' ' :: '"' :: (m ++ '"' :: Z))) =
      (if (m ++ '"' :: Z).any (· = '"') then
        some ((m ++ '"' :: Z).takeWhile (· ≠ '"')) else none) := rfl
  rw [h1, if_pos (any_quote m Z), takeWhile_quote m Z hm]

theorem fieldSearch_sum_seg (s m a b : List Char)
    (hs : s.all lowAl = true) (k : Nat) :
    fieldSearch "\"summary\"".toList (k + 2)
      ('{' :: '"' :: ("summary".toList ++ '"' :: ':' :: ' ' :: '"' :: (s ++ '"' :: ',' :: ' ' :: '"' :: ("mermaid_code".toList ++ '"' :: ':' :: ' ' :: '"' :: (m ++ '"' :: ',' :: ' ' :: '"' :: ("detected_issues".toList ++ '"' :: ':' :: ' ' :: '[' :: '"' :: (a ++ '"' :: ',' :: ' ' :: '"' :: (b ++ ['}'])))))))) = some s := by
  rw [fieldSearch_step "\"summary\"".toList (k + 2) (k + 1) '{'
    ('"' :: ("summary".toList ++ '"' :: ':' :: ' ' :: '"' :: (s ++ '"' :: ',' :: ' ' :: '"' :: ("mermaid_code".toList ++ '"' :: ':' :: ' ' :: '"' :: (m ++ '"' :: ',' :: ' ' :: '"' :: ("detected_issues".toList ++ '"' :: ':' :: ' ' :: '[' :: '"' :: (a ++ '"' :: ',' :: ' ' :: '"' :: (b ++ ['}'])))))))) rfl rfl]
  exact fieldSearch_hit "\"summary\"".toList (k + 1) k '"'
    ("summary".toList ++ '"' :: ':' :: ' ' :: '"' :: (s ++ '"' :: ',' :: ' ' :: '"' :: ("mermaid_code".toList ++ '"' :: ':' :: ' ' :: '"' :: (m ++ '"' :: ',' :: ' ' :: '"' :: ("detected_issues".toList ++ '"' :: ':' :: ' ' :: '[' :: '"' :: (a ++ '"' :: ',' :: ' ' :: '"' :: (b ++ ['}']))))))) s rfl (fieldTryAt_sum s (',' :: ' ' :: '"' :: ("mermaid_code".toList ++ '"' :: ':' :: ' ' :: '"' :: (m ++ '"' :: ',' :: ' ' :: '"' :: ("detected_issues".toList ++ '"' :: ':' :: ' ' :: '[' :: '"' :: (a ++ '"' :: ',' :: ' ' :: '"' :: (b ++ ['}'])))))) hs)

theorem fieldSearch_mer_seg (s m a b : List Char)
    (hs : s.all lowAl = true) (hm : m.all lowAl = true) (k : Nat) :
    fieldSearch "\"mermaid_code\"".toList (k + 4 + s.length + 4 + 7 + 2)
      ('{' :: '"' :: ("summary".toList ++ '"' :: ':' :: ' ' :: '"' :: (s ++ '"' :: ',' :: ' ' :: '"' :: ("mermaid_code".toList ++ '"' :: ':' :: ' ' :: '"' :: (m ++ '"' :: ',' :: ' ' :: '"' :: ("detected_issues".toList ++ '"' :: ':' :: ' ' :: '[' :: '"' :: (a ++ '"' :: ',' :: ' ' :: '"' :: (b ++ ['}'])))))))) = some m := by
  rw [fieldSearch_step "\"mermaid_code\"".toList (k + 4 + s.length + 4 + 7 + 2) (k + 4 + s.length + 4 + 7 + 1) '{'
    ('"' :: ("summary".toList ++ '"' :: ':' :: ' ' :: '"' :: (s ++ '"' :: ',' :: ' ' :: '"' :: ("mermaid_code".toList ++ '"' :: ':' :: ' ' :: '"' :: (m ++ '"' :: ',' :: ' ' :: '"' :: ("detected_issues".toList ++ '"' :: ':' :: ' ' :: '[' :: '"' :: (a ++ '"' :: ',' :: ' ' :: '"' :: (b ++ ['}'])))))))) rfl rfl]
  rw [fieldSearch_step "\"mermaid_code\"".toList (k + 4 + s.length + 4 + 7 + 1) (k + 4 + s.length + 4 + 7) '"'
    ("summary".toList ++ '"' :: ':' :: ' ' :: '"' :: (s ++ '"' :: ',' :: ' ' :: '"' :: ("mermaid_code".toList ++ '"' :: ':' :: ' ' :: '"' :: (m ++ '"' :: ',' :: ' ' :: '"' :: ("detected_issues".toList ++ '"' :: ':' :: ' ' :: '[' :: '"' :: (a ++ '"' :: ',' :: ' ' :: '"' :: (b ++ ['}']))))))) rfl rfl]
  rw [fieldSearch_skip "\"mermaid_code\"".toList "summary".toList
    ('"' :: ':' :: ' ' :: '"' :: (s ++ '"' :: ',' :: ' ' :: '"' :: ("mermaid_code".toList ++ '"' :: ':' :: ' ' :: '"' :: (m ++ '"' :: ',' :: ' ' :: '"' :: ("detected_issues".toList ++ '"' :: ':' :: ' ' :: '[' :: '"' :: (a ++ '"' :: ',' :: ' ' :: '"' :: (b ++ ['}']))))))) (k + 4 + s.length + 4 + 7) (k + 4 + s.length + 4) rfl rfl (by decide)]
  rw [fieldSearch_step "\"mermaid_code\"".toList (k + 4 + s.length + 4) (k + 4 + s.length + 3) '"'
    (':' :: ' ' :: '"' :: (s ++ '"' :: ',' :: ' ' :: '"' :: ("mermaid_code".toList ++ '"' :: ':' :: ' ' :: '"' :: (m ++ '"' :: ',' :: ' ' :: '"' :: ("detected_issues".toList ++ '"' :: ':' :: ' ' :: '[' :: '"' :: (a ++ '"' :: ',' :: ' ' :: '"' :: (b ++ ['}']))))))) rfl rfl]
  rw [fieldSearch_step "\"mermaid_code\"".toList (k + 4 + s.length + 3) (k + 4 + s.length + 2) ':'
    (' ' :: '"' :: (s ++ '"' :: ',' :: ' ' :: '"' :: ("mermaid_code".toList ++ '"' :: ':' :: ' ' :: '"' :: (m ++ '"' :: ',' :: ' ' :: '"' :: ("detected_issues".toList ++ '"' :: ':' :: ' ' :: '[' :: '"' :: (a ++ '"' :: ',' :: ' ' :: '"' :: (b ++ ['}']))))))) rfl rfl]
  rw [fieldSearch_step "\"mermaid_code\"".toList (k + 4 + s.length + 2) (k + 4 + s.length + 1) ' '
    ('"' :: (s ++ '"' :: ',' :: ' ' :: '"' :: ("mermaid_code".toList ++ '"' :: ':' :: ' ' :: '"' :: (m ++ '"' :: ',' :: ' ' :: '"' :: ("detected_issues".toList ++ '"' :: ':' :: ' ' :: '[' :: '"' :: (a ++ '"' :: ',' :: ' ' :: '"' :: (b ++ ['}']))))))) rfl rfl]
  rw [fieldSearch_step "\"mermaid_code\"".toList (k + 4 + s.length + 1) (k + 4 + s.length) '"'
    (s ++ '"' :: ',' :: ' ' :: '"' :: ("mermaid_code".toList ++ '"' :: ':' :: ' ' :: '"' :: (m ++ '"' :: ',' :: ' ' :: '"' :: ("detected_issues".toList ++ '"' :: ':' :: ' ' :: '[' :: '"' :: (a ++ '"' :: ',' :: ' ' :: '"' :: (b ++ ['}'])))))) rfl (fieldTryAt_mer_under s (',' :: ' ' :: '"' :: ("mermaid_code".toList ++ '"' :: ':' :: ' ' :: '"' :: (m ++ '"' :: ',' :: ' ' :: '"' :: ("detected_issues".toList ++ '"' :: ':' :: ' ' :: '[' :: '"' :: (a ++ '"' :: ',' :: ' ' :: '"' :: (b ++ ['}'])))))) hs)]
  rw [fieldSearch_skip "\"mermaid_code\"".toList s ('"' :: ',' :: ' ' :: '"' :: ("mermaid_code".toList ++ '"' :: ':' :: ' ' :: '"' :: (m ++ '"' :: ',' :: ' ' :: '"' :: ("detected_issues".toList ++ '"' :: ':' :: ' ' :: '[' :: '"' :: (a ++ '"' :: ',' :: ' ' :: '"' :: (b ++ ['}'])))))) (k + 4 + s.length) (k + 4) rfl rfl
    (fun c hc => lowAl_ne (all_lowAl_forall hs c hc) '"' (by decide))]
  rw [fieldSearch_step "\"mermaid_code\"".toList (k + 4) (k + 3) '"'
    (',' :: ' ' :: '"' :: ("mermaid_code".toList ++ '"' :: ':' :: ' ' :: '"' :: (m ++ '"' :: ',' :: ' ' :: '"' :: ("detected_issues".toList ++ '"' :: ':' :: ' ' :: '[' :: '"' :: (a ++ '"' :: ',' :: ' ' :: '"' :: (b ++ ['}'])))))) rfl rfl]
  rw [fieldSearch_step "\"mermaid_code\"".toList (k + 3) (k + 2) ','
    (' ' :: '"' :: ("mermaid_code".toList ++ '"' :: ':' :: ' ' :: '"' :: (m ++ '"' :: ',' :: ' ' :: '"' :: ("detected_issues".toList ++ '"' :: ':' :: ' ' :: '[' :: '"' :: (a ++ '"' :: ',' :: ' ' :: '"' :: (b ++ ['}'])))))) rfl rfl]
  rw [fieldSearch_step "\"mermaid_code\"".toList (k + 2) (k + 1) ' '
    ('"' :: ("mermaid_code".toList ++ '"' :: ':' :: ' ' :: '"' :: (m ++ '"' :: ',' :: ' ' :: '"' :: ("detected_issues".toList ++ '"' :: ':' :: ' ' :: '[' :: '"' :: (a ++ '"' :: ',' :: ' ' :: '"' :: (b ++ ['}'])))))) rfl rfl]
  exact fieldSearch_hit "\"mermaid_code\"".toList (k + 1) k '"'
    ("mermaid_code".toList ++ '"' :: ':' :: ' ' :: '"' :: (m ++ '"' :: ',' :: ' ' :: '"' :: ("detected_issues".toList ++ '"' :: ':' :: ' ' :: '[' :: '"' :: (a ++ '"' :: ',' :: ' ' :: '"' :: (b ++ ['}']))))) m rfl
    (fieldTryAt_mer m (',' :: ' ' :: '"' :: ("detected_issues".toList ++ '"' :: ':' :: ' ' :: '[' :: '"' :: (a ++ '"' :: ',' :: ' ' :: '"' :: (b ++ ['}'])))) hm)

theorem truncReply_seg (s m a b : List Char) :
    truncReply s m a b ++ ['}'] = '{' :: '"' :: ("summary".toList ++ '"' :: ':' :: ' ' :: '"' :: (s ++ '"' :: ',' :: ' ' :: '"' :: ("mermaid_code".toList ++ '"' :: ':' :: ' ' :: '"' :: (m ++ '"' :: ',' :: ' ' :: '"' :: ("detected_issues".toList ++ '"' :: ':' :: ' ' :: '[' :: '"' :: (a ++ '"' :: ',' :: ' ' :: '"' :: (b ++ ['}']))))))) := by
  have hA : litA = '{' :: '"' :: ("summary".toList ++ ['"', ':', ' ', '"']) := rfl
  have hB : litB = '"' :: ',' :: ' ' :: '"' ::
      ("mermaid_code".toList ++ ['"', ':', ' ', '"']) := rfl
  have hC : litC = '"' :: ',' :: ' ' :: '"' ::
      ("detected_issues".toList ++ ['"', ':', ' ', '[', '"']) := rfl
  have hD : litD = '"' :: ',' :: ' ' :: '"' :: [] := rfl
  simp [truncReply, hA, hB, hC, hD, List.append_assoc]

theorem truncReply_seg0 (s m a b : List Char) :
    truncReply s m a b = '{' :: '"' :: ("summary".toList ++ '"' :: ':' :: ' ' :: '"' :: (s ++ '"' :: ',' :: ' ' :: '"' :: ("mermaid_code".toList ++ '"' :: ':' :: ' ' :: '"' :: (m ++ '"' :: ',' :: ' ' :: '"' :: ("detected_issues".toList ++ '"' :: ':' :: ' ' :: '[' :: '"' :: (a ++ '"' :: ',' :: ' ' :: '"' :: b)))))) := by
  have hA : litA = '{' :: '"' :: ("summary".toList ++ ['"', ':', ' ', '"']) := rfl
  have hB : litB = '"' :: ',' :: ' ' :: '"' ::
      ("mermaid_code".toList ++ ['"', ':', ' ', '"']) := rfl
  have hC : litC = '"' :: ',' :: ' ' :: '"' ::
      ("detected_issues".toList ++ ['"', ':', ' ', '[', '"']) := rfl
  have hD : litD = '"' :: ',' :: ' ' :: '"' :: [] := rfl
  simp [truncReply, hA, hB, hC, hD, List.append_assoc]

theorem truncReply_len (s m a b : List Char) :
    (truncReply s m a b ++ ['}']).length =
      s.length + m.length + a.length + b.length + 62 := by
  have hA : litA.length = 13 := rfl
  have hB : litB.length = 20 := rfl
  have hC : litC.length = 24 := rfl
  have hD : litD.length = 4 := rfl
  simp only [truncReply, List.length_append, List.length_cons,
    List.length_nil, hA, hB, hC, hD]
  omega

theorem lowAl_ne_of (c : Char) {l : List Char} (h : l.all lowAl = true)
    (hc : ¬(97 ≤ c.toNat ∧ c.toNat ≤ 122)) : ∀ d ∈ l, d ≠ c :=
  fun d hd => lowAl_ne (all_lowAl_forall h d hd) c hc

theorem manualFields_truncReply (s m a b : List Char)
    (hs : s.all lowAl = true) (hm : m.all lowAl = true)
    (ha : a.all lowAl = true) (hb : b.all lowAl = true) :
    manualFields (truncReply s m a b ++ ['}']) = [("summary", Json.str (String.mk s)), ("mermaid_code", Json.str (String.mk m))] := by
  have hR := truncReply_seg s m a b
  have hlen := truncReply_len s m a b
  have hnobr : (truncReply s m a b ++ ['}']).all (· ≠ ']') := by
    simp only [List.all_append, Bool.and_eq_true]
    constructor
    · exact List.all_eq_true.mpr
        (fun c hc => decide_eq_true
          (truncReply_forall (by decide) (by decide) (by decide) (by decide)
            (lowAl_ne_of ']' hs (by decide)) (lowAl_ne_of ']' hm (by decide))
            (lowAl_ne_of ']' ha (by decide)) (lowAl_ne_of ']' hb (by decide))
            c hc))
    · decide
  have hdet := arrSearch_no_bracket "\"detected_issues\"".toList
    ((truncReply s m a b ++ ['}']).length + 1) _ hnobr
  have hfix := arrSearch_no_bracket "\"fix_recommendations\"".toList
    ((truncReply s m a b ++ ['}']).length + 1) _ hnobr
  obtain ⟨k1, hk1⟩ : ∃ k, (truncReply s m a b ++ ['}']).length + 1 = k + 2 :=
    ⟨s.length + m.length + a.length + b.length + 61, by omega⟩
  obtain ⟨k2, hk2⟩ : ∃ k, (truncReply s m a b ++ ['}']).length + 1 =
      k + 4 + s.length + 4 + 7 + 2 :=
    ⟨m.length + a.length + b.length + 46, by rw [hlen]; omega⟩
  have hsum : fieldSearch "\"summary\"".toList
      ((truncReply s m a b ++ ['}']).length + 1)
      (truncReply s m a b ++ ['}']) = some s := by
    rw [hk1, hR]
    exact fieldSearch_sum_seg s m a b hs k1
  have hmer : fieldSearch "\"mermaid_code\"".toList
      ((truncReply s m a b ++ ['}']).length + 1)
      (truncReply s m a b ++ ['}']) = some m := by
    rw [hk2, hR]
    exact fieldSearch_mer_seg s m a b hs hm k2
  have hrs : replaceAllL ['\\', '"'] ['"'] (s.length + 1) s = s :=
    replaceAllL_no_bs ['"'] ['"'] s (lowAl_ne_of '\\' hs (by decide)) _
  have hrm : replaceAllL ['\\', '"'] ['"'] (m.length + 1) m = m :=
    replaceAllL_no_bs ['"'] ['"'] m (lowAl_ne_of '\\' hm (by decide)) _
  have hrm2 : replaceAllL ['\\', 'n'] ['\n'] (m.length + 1) m = m :=
    replaceAllL_no_bs ['n'] ['\n'] m (lowAl_ne_of '\\' hm (by decide)) _
  simp only [manualFields, hsum, hmer, hdet, hfix, hrs, hrm, hrm2]
  rfl

theorem lowAl_strPlain_all {l : List Char} (h : l.all lowAl = true) :
    ∀ c ∈ l, strPlain c :=
  fun c hc => lowAl_strPlain (all_lowAl_forall h c hc)

theorem braceStage_truncReply (s m a b : List Char)
    (hs : s.all lowAl = true) (hm : m.all lowAl = true)
    (ha : a.all lowAl = true) (hb : b.all lowAl = true) (hbne : b ≠ []) :
    braceStage (truncReply s m a b) = some (.obj [("summary", Json.str (String.mk s)), ("mermaid_code", Json.str (String.mk m))]) := by
  have hcons := truncReply_seg0 s m a b
  have hany : (truncReply s m a b).any (· = '{') = true := by
    rw [hcons]
    simp
  have hdropw : (truncReply s m a b).dropWhile (· ≠ '{') =
      truncReply s m a b := by
    rw [hcons]
    simp [List.dropWhile_cons]
  have hscan : scanJsonEnd (truncReply s m a b) 0 false false 0 = none :=
    scanJsonEnd_none _
      (truncReply_forall (by decide) (by decide) (by decide) (by decide)
        (lowAl_ne_of '}' hs (by decide)) (lowAl_ne_of '}' hm (by decide))
        (lowAl_ne_of '}' ha (by decide)) (lowAl_ne_of '}' hb (by decide)))
      0 false false 0
  have hrepair := repairTrunc_truncReply s m a b hs hm ha hb hbne
  have hcf := commaFixes_truncReply hs hm ha hb
  have hload2 : jsonLoadsL (truncReply s m a b ++ ['}']) = none := by
    refine loads_truncReply_none s m a b ['}'] (lowAl_strPlain_all hs)
      (lowAl_strPlain_all hm) (lowAl_strPlain_all ha) ?_
    intro c hc
    rcases List.mem_append.mp hc with h1 | h1
    · exact lowAl_strPlain_all hb c h1
    · have : c = '}' := by simpa using h1
      subst this
      exact ⟨by decide, by decide, by decide⟩
  have hman : manualStage (truncReply s m a b ++ ['}']) =
      some (.obj [("summary", Json.str (String.mk s)), ("mermaid_code", Json.str (String.mk m))]) := by
    simp only [manualStage, manualFields_truncReply s m a b hs hm ha hb]
  unfold braceStage
  rw [if_pos hany]
  simp only [hdropw, hscan, hrepair, hcf, hload2, hman]

theorem parse_truncReply (s m a b : List Char)
    (hs : s.all lowAl = true) (hm : m.all lowAl = true)
    (ha : a.all lowAl = true) (hb : b.all lowAl = true) (hbne : b ≠ []) :
    parse_gemini_response (String.mk (truncReply s m a b)) =
      .ok (.obj [("summary", Json.str (String.mk s)), ("mermaid_code", Json.str (String.mk m))]) := by
  have hcons := truncReply_seg0 s m a b
  have hhead : (truncReply s m a b).head? = some '{' := by
    rw [hcons]
    rfl
  have hlastb : (truncReply s m a b).getLast? = some (b.getLast hbne) := by
    rw [truncReply, List.getLast?_append_of_ne_nil _ hbne]
    exact List.getLast?_eq_getLast b hbne
  have hdlow : lowAl (b.getLast hbne) = true :=
    all_lowAl_forall hb _ (List.getLast_mem hbne)
  have hdot : ∀ c ∈ truncReply s m a b, c ≠ '.' :=
    truncReply_forall (by decide) (by decide) (by decide) (by decide)
      (lowAl_ne_of '.' hs (by decide)) (lowAl_ne_of '.' hm (by decide))
      (lowAl_ne_of '.' ha (by decide)) (lowAl_ne_of '.' hb (by decide))
  have hstrip : stripConversational (truncReply s m a b) = truncReply s m a b :=
    stripConversational_id hhead hlastb (lowAl_not_pyWs hdlow) hdot
  have hload : jsonLoadsL (truncReply s m a b) = none := by
    have h0 := loads_truncReply_none s m a b [] (lowAl_strPlain_all hs)
      (lowAl_strPlain_all hm) (lowAl_strPlain_all ha)
      (by
        intro c hc
        rw [List.append_nil] at hc
        exact lowAl_strPlain_all hb c hc)
    rwa [List.append_nil] at h0
  have hfence : fencedScan ((truncReply s m a b).length + 1)
      (truncReply s m a b) = none :=
    fencedScan_none _ _
      (truncReply_forall (by decide) (by decide) (by decide) (by decide)
        (lowAl_ne_of btick hs (by decide)) (lowAl_ne_of btick hm (by decide))
        (lowAl_ne_of btick ha (by decide)) (lowAl_ne_of btick hb (by decide)))
  have hbrace := braceStage_truncReply s m a b hs hm ha hb hbne
  have htl : (String.mk (truncReply s m a b)).toList = truncReply s m a b := rfl
  unfold parse_gemini_response
  simp only [htl, hstrip, hload, hfence, hbrace]

/-! ## Claim theorems -/

set_option maxRecDepth 100000

/-- Claim C1 (code bug): the claim says intermediate rate-limit
failures are retried transparently with exponential backoff and the
quota error is surfaced only after the retry budget is exhausted, so a
backend failing twice with a rate-limit signal and succeeding on the
third call makes `invoke` return that reply with the configured total
delay.  The code's retry guard `attempt < max_retries - 1` with
`max_retries = 1` never holds, so the very first quota-class failure
raises the quota-exceeded error with no sleep and no retry: on the
failing input below the third, successful call is never made and the
simulated delay is zero, contradicting the code's own comments
("Single retry only", "Exponential backoff: 30s, 60s, 120s") and log
messages; moreover for EVERY backend the invocation step sleeps a
total of zero time-units and makes at most the two calls of the first
attempt — the whole backoff schedule is dead code. -/
theorem claim1_quota_retry_evaluation :
    invokeModel [.err "429 rate limit", .err "429 rate limit", .ok "reply"] =
      ⟨.error quotaExceededMsg, [true, false], 0⟩ ∧
    (∀ script : List GenOutcome, (invokeModel script).totalDelay = 0 ∧
      (invokeModel script).calls.length ≤ 2) := by
  refine ⟨rfl, fun script => ?_⟩
  cases script with
  | nil => exact ⟨rfl, by decide⟩
  | cons o rest =>
    cases o with
    | ok reply =>
      by_cases hr : reply = "" <;>
        simp [invokeModel, invokeLoop, genCall, max_retries,
          initial_retry_delay, hr]
    | err e1 =>
      cases rest with
      | nil => exact ⟨rfl, Nat.le_refl 2⟩
      | cons o2 rest2 =>
        cases o2 with
        | ok r2 =>
          by_cases hr : r2 = "" <;>
            simp [invokeModel, invokeLoop, genCall, max_retries,
              initial_retry_delay, hr]
        | err e2 =>
          by_cases hq : is_quota_error e2 = true <;>
            simp [invokeModel, invokeLoop, genCall, max_retries,
              initial_retry_delay, hq]

/-- Claim C2 (confirmed): for every README text and every length bound
`N`, the content-reduction step returns text of length at most `N` plus
the three-character ellipsis marker; the function is total, so it never
raises. -/
theorem claim2_reduce_length_bound (s : String) (N : Nat) :
    (reduceContent s N).length ≤ N + 3 := by
  show (reduceContentL s.toList N).length ≤ N + 3
  unfold reduceContentL
  by_cases h1 : s.toList.length > N
  · simp only [h1, if_true]
    by_cases h2 : (joinNl (selectLines N (splitNl s.toList) 0 0)).length > N
    · simp only [h2, if_true]
      rw [List.length_append]
      have hr := rsplitDotHead_length_le
        ((joinNl (selectLines N (splitNl s.toList) 0 0)).take N)
      have ht : ((joinNl (selectLines N (splitNl s.toList) 0 0)).take N).length ≤ N := by
        simp
      simpa using Nat.add_le_add_right (le_trans hr ht) 3
    · simp only [h2, if_false]
      omega
  · simp only [h1, if_false]
    omega

/-- Claim C10 (confirmed): a fetched README whose length is at most the
800-character budget is passed to the prompt verbatim; no cleaning
transform is applied below the threshold. -/
theorem claim10_short_readme_verbatim (s : String) :
    s.length ≤ max_readme_length → reduceReadme s = s := by
  intro h
  show String.mk (reduceContentL s.toList max_readme_length) = s
  unfold reduceContentL
  have hlen : s.toList.length = s.length := rfl
  have hno : ¬ s.toList.length > max_readme_length := by omega
  rw [if_neg hno]
  cases s
  rfl

/-- Witness for C10 at a concrete README below the budget. -/
theorem claim10_short_readme_verbatim_witness :
    ("# Hello\nA tiny readme." : String).length ≤ max_readme_length ∧
      reduceReadme "# Hello\nA tiny readme." = "# Hello\nA tiny readme." :=
  ⟨by decide, claim10_short_readme_verbatim _ (by decide)⟩

/-- Claim C5 (confirmed): the schema validator fails with its schema
error exactly when the input is not an object; every object input
succeeds, and the empty object yields the placeholder summary, the
placeholder diagram and two empty sequences. -/
theorem claim5_validate_object_iff :
    (∀ v : Json, (validate_response_schema v).isOk = v.isObj) ∧
    (∀ v : Json, v.isObj = false →
      validate_response_schema v = .error "Response must be a JSON object") ∧
    validate_response_schema (.obj []) =
      .ok [("summary", .str defaultSummary),
           ("mermaid_code", .str defaultMermaid),
           ("detected_issues", .arr []),
           ("fix_recommendations", .arr [])] := by
  refine ⟨fun v => ?_, fun v h => ?_, rfl⟩
  · cases v <;> rfl
  · cases v <;> first
      | rfl
      | simp [Json.isObj] at h

/-- Witness for C5: a non-object raises the schema error, the empty
object validates to the placeholder result. -/
theorem claim5_validate_object_iff_witness :
    validate_response_schema (.str "not an object") =
        .error "Response must be a JSON object" ∧
      validate_response_schema (.obj []) =
        .ok [("summary", .str defaultSummary),
             ("mermaid_code", .str defaultMermaid),
             ("detected_issues", .arr []),
             ("fix_recommendations", .arr [])] :=
  ⟨claim5_validate_object_iff.2.1 (.str "not an object") rfl,
   claim5_validate_object_iff.2.2⟩

/-- Claim C4 counterexample: the claim says `mermaid_code` is never the
empty string, but an input that carries `mermaid_code` explicitly set
to the empty string passes through the validator unchanged. -/
theorem claim4_empty_mermaid_counterexample :
    validate_response_schema (.obj [("mermaid_code", .str "")]) =
      .ok [("summary", .str defaultSummary),
           ("mermaid_code", .str ""),
           ("detected_issues", .arr []),
           ("fix_recommendations", .arr [])] := by
  rfl

/-- Claim C4 (corrected): every validated value has exactly the four
fields in order, `summary` and `mermaid_code` strings and the two
sequences lists of strings; and when `mermaid_code` is absent from the
input the non-empty structural placeholder is substituted.  (An
explicitly empty `mermaid_code` string in the input is passed through,
so "never the empty string" does not hold in general.) -/
theorem claim4_schema_shape_amended :
    (∀ kvs : List (String × Json), ∃ (s m : String) (xs ys : List String),
      validate_response_schema (.obj kvs) =
        .ok [("summary", .str s), ("mermaid_code", .str m),
             ("detected_issues", .arr (xs.map Json.str)),
             ("fix_recommendations", .arr (ys.map Json.str))]) ∧
    (∀ kvs : List (String × Json), pyGet kvs "mermaid_code" = none →
      ∃ (s : String) (xs ys : List String),
        validate_response_schema (.obj kvs) =
          .ok [("summary", .str s), ("mermaid_code", .str defaultMermaid),
               ("detected_issues", .arr (xs.map Json.str)),
               ("fix_recommendations", .arr (ys.map Json.str))] ∧
        defaultMermaid ≠ "") := by
  constructor
  · intro kvs
    refine ⟨(match pyGet kvs "summary" with
        | some v => pyStr v | none => defaultSummary),
      (match pyGet kvs "mermaid_code" with
        | some v => pyStr v | none => defaultMermaid),
      (match pyGet kvs "detected_issues" with
        | some (.arr xs) => xs | _ => []).map pyStr,
      (match pyGet kvs "fix_recommendations" with
        | some (.arr xs) => xs | _ => []).map pyStr, ?_⟩
    simp [validate_response_schema, List.map_map, Function.comp_def]
  · intro kvs h
    refine ⟨(match pyGet kvs "summary" with
        | some v => pyStr v | none => defaultSummary),
      (match pyGet kvs "detected_issues" with
        | some (.arr xs) => xs | _ => []).map pyStr,
      (match pyGet kvs "fix_recommendations" with
        | some (.arr xs) => xs | _ => []).map pyStr, ?_, by decide⟩
    simp [validate_response_schema, h, List.map_map, Function.comp_def]

/-- Witness for C4: at the empty object the hypothesis of the second
part holds and the placeholder diagram is substituted. -/
theorem claim4_schema_shape_amended_witness :
    ∃ (s : String) (xs ys : List String),
      validate_response_schema (.obj []) =
        .ok [("summary", .str s), ("mermaid_code", .str defaultMermaid),
             ("detected_issues", .arr (xs.map Json.str)),
             ("fix_recommendations", .arr (ys.map Json.str))] ∧
      defaultMermaid ≠ "" :=
  claim4_schema_shape_amended.2 [] rfl

/-- Claim C7 (code bug): the claim (and the source's own comment "If
response_mime_type not supported, use regular config") says the
fallback without forced-JSON mode happens only when the backend rejects
that option as unsupported; but the fallback handler catches every
exception, so a rate-limit failure of the forced-JSON call also
triggers the immediate fallback call — here the backend fails the
first call with a quota signal and `invoke` still returns the fallback
reply, with no retry budget consumed. -/
theorem claim7_fallback_on_quota_evaluation :
    invokeModel [.err "429 Resource exhausted (quota)", .ok "good"] =
      ⟨.ok "good", [true, false], 0⟩ := by
  rfl

/-- Claim C8 counterexample: the claim says every non-quota backend
failure is re-raised immediately, but a non-quota failure of the
forced-JSON call is swallowed by the catch-all fallback handler: the
fallback call succeeds and `invoke` returns its reply instead of
raising. -/
theorem claim8_nonquota_swallowed_counterexample :
    is_quota_error "boom" = false ∧
      invokeModel [.err "boom", .ok "hi"] = ⟨.ok "hi", [true, false], 0⟩ :=
  ⟨rfl, rfl⟩

/-- Claim C8 (corrected): a non-quota failure that escapes an attempt —
that is, a failure of the fallback call after the forced-JSON call also
failed — is re-raised immediately, with zero delay, no further backend
calls and no retry; but a non-quota failure of the forced-JSON call
alone is handled by the fallback instead of being re-raised. -/
theorem claim8_nonquota_reraise_amended (e1 e2 : String)
    (rest : List GenOutcome) (h : is_quota_error e2 = false) :
    invokeModel (.err e1 :: .err e2 :: rest) =
      ⟨.error e2, [true, false], 0⟩ := by
  simp [invokeModel, invokeLoop, genCall, max_retries, initial_retry_delay, h]

/-- Witness for C8 at a concrete non-quota error message. -/
theorem claim8_nonquota_reraise_amended_witness :
    is_quota_error "bad request" = false ∧
      invokeModel [.err "first", .err "bad request"] =
        ⟨.error "bad request", [true, false], 0⟩ :=
  ⟨rfl, claim8_nonquota_reraise_amended "first" "bad request" [] rfl⟩

/-- Claim C3 counterexample: a JSON object truncated mid-array inside
`detected_issues` after the two complete elements `"a"` and `"b"`.
The claim says those complete elements are still recovered, but the
array-extraction pattern requires a closing bracket, which the
truncation removed: the result carries `summary` and `mermaid_code`
only, and no `detected_issues` field at all. -/
theorem claim3_truncated_array_counterexample :
    parse_gemini_response
        "\x7b\"summary\": \"s\", \"mermaid_code\": \"m\", \"detected_issues\": [\"a\", \"b\", \"c" =
      .ok (.obj [("summary", .str "s"), ("mermaid_code", .str "m")]) ∧
    pyGet [("summary", Json.str "s"), ("mermaid_code", Json.str "m")]
        "detected_issues" = none :=
  ⟨rfl, rfl⟩

/-- Claim C3 (corrected): on a reply truncated mid-array inside
`detected_issues` after at least one complete quoted element, the
recovery parser still recovers `summary` and `mermaid_code` (complete
before the truncation point), but not the completed array elements:
for the whole four-parameter family of truncated replies
`\x7b"summary": "<s>", "mermaid_code": "<m>", "detected_issues": ["<a>", "<b>`
(lower-case words, truncation inside the second element) the parser
returns exactly `summary` and `mermaid_code`, and for every candidate
text without a closing bracket — a reply truncated inside the array
has none — the manual extraction cannot produce a `detected_issues`
entry. -/
theorem claim3_truncated_array_amended :
    (∀ s m a b : List Char, s.all lowAl = true → m.all lowAl = true →
      a.all lowAl = true → b.all lowAl = true → b ≠ [] →
      parse_gemini_response (String.mk (truncReply s m a b)) =
        .ok (.obj [("summary", Json.str (String.mk s)),
                   ("mermaid_code", Json.str (String.mk m))])) ∧
    (∀ js : List Char, js.all (· ≠ ']') →
      pyGet (manualFields js) "detected_issues" = none) :=
  ⟨parse_truncReply, manualFields_no_bracket⟩

/-- Witness for C3: the family theorem applied at a concrete truncated
reply, and the no-bracket part applied to a concrete truncated
candidate carrying two complete elements but no closing bracket. -/
theorem claim3_truncated_array_amended_witness :
    parse_gemini_response
        (String.mk (truncReply "layeredwebservice".toList
          "sequencediagram".toList "notests".toList "nodocs".toList)) =
      .ok (.obj [("summary", Json.str "layeredwebservice"),
                 ("mermaid_code", Json.str "sequencediagram")]) ∧
    pyGet (manualFields "\"detected_issues\": [\"a\", \"b".toList)
        "detected_issues" = none :=
  ⟨claim3_truncated_array_amended.1 "layeredwebservice".toList
      "sequencediagram".toList "notests".toList "nodocs".toList
      (by decide) (by decide) (by decide) (by decide) (by decide),
   claim3_truncated_array_amended.2 ("\"detected_issues\": [\"a\", \"b".toList) rfl⟩

/-- Claim C6 counterexample: perfectly valid JSON whose string content
ends a sentence before the phrase "Let me know".  The conversational
suffix removal fires inside the JSON string, the mutilated text then
fails every strategy of the cascade, and the parser raises instead of
returning the parsed structure. -/
theorem claim6_direct_parse_counterexample :
    jsonLoads "\x7b\"summary\": \"Done. Let me know if you need more.\"\x7d" =
      some (.obj [("summary", .str "Done. Let me know if you need more.")]) ∧
    parse_gemini_response "\x7b\"summary\": \"Done. Let me know if you need more.\"\x7d" =
      .error (parseFailMsg
        "\x7b\"summary\": \"Done. Let me know if you need more.\"\x7d".toList) :=
  ⟨rfl, rfl⟩

/-- Claim C6 (corrected): the direct-parse path is the identity on
every valid-JSON reply that the conversational stripping prologue
leaves unchanged; in particular the stripping is guaranteed neutral on
any reply that starts with `'{'`, ends with a non-whitespace character
and contains no `'.'`.  Valid JSON that triggers the stripping (a
sentence period followed by a conversational closer inside a string)
can be mutilated and lost. -/
theorem claim6_direct_parse_amended :
    (∀ (t : String) (v : Json), stripConversational t.toList = t.toList →
      jsonLoadsL t.toList = some v → parse_gemini_response t = .ok v) ∧
    (∀ (l : List Char) (d : Char), l.head? = some '{' →
      l.getLast? = some d → isPyWs d = false → (∀ c ∈ l, c ≠ '.') →
      stripConversational l = l) := by
  constructor
  · intro t v hstrip hjson
    unfold parse_gemini_response
    simp only [hstrip, hjson]
  · intro l d h1 h2 h3 h4
    exact stripConversational_id h1 h2 h3 h4

/-- Witness for C6 at a concrete stripping-neutral valid JSON reply. -/
theorem claim6_direct_parse_amended_witness :
    parse_gemini_response "\x7b\"summary\": \"All good\"\x7d" =
        .ok (.obj [("summary", .str "All good")]) ∧
      stripConversational "\x7b\"summary\": \"All good\"\x7d".toList =
        "\x7b\"summary\": \"All good\"\x7d".toList :=
  ⟨claim6_direct_parse_amended.1 _ _ rfl rfl,
   claim6_direct_parse_amended.2 _ '\x7d' rfl rfl rfl (by decide)⟩

/-- Claim C9 counterexample: a truncated reply whose `summary` string
never closes but whose `mermaid_code` is complete.  The claim says
manual extraction succeeds only with a recovered `summary`, but the
stage accepts any non-empty result: the parser returns a result with
`mermaid_code` alone and no `summary`. -/
theorem claim9_no_summary_counterexample :
    parse_gemini_response "\x7b\"mermaid_code\": \"m\", \"summary\": \"x" =
      .ok (.obj [("mermaid_code", .str "m")]) ∧
    pyGet [("mermaid_code", Json.str "m")] "summary" = none :=
  ⟨rfl, rfl⟩

/-- Claim C9 (corrected): the manual field-extraction stage succeeds
exactly when it recovered at least one of the four fields — any
non-empty subset is accepted and `summary` is not privileged, as the
successful summary-less recovery of a complete `mermaid_code` shows. -/
theorem claim9_manual_nonempty_amended :
    (∀ (js : List Char) (j : Json), manualStage js = some j →
      ∃ kvs, j = Json.obj kvs ∧ kvs ≠ []) ∧
    parse_gemini_response "\x7b\"mermaid_code\": \"graph TD\", \"summary\": \"partial" =
      .ok (.obj [("mermaid_code", .str "graph TD")]) := by
  constructor
  · intro js j h
    cases hm : manualFields js with
    | nil => simp [manualStage, hm] at h
    | cons a as =>
      simp [manualStage, hm] at h
      exact ⟨a :: as, h.symm, List.cons_ne_nil a as⟩
  · rfl

/-- Witness for C9: the general part applied to a concrete input on
which the manual stage succeeds. -/
theorem claim9_manual_nonempty_amended_witness :
    ∃ kvs, Json.obj [("summary", Json.str "ok")] = Json.obj kvs ∧ kvs ≠ [] :=
  claim9_manual_nonempty_amended.1 ("\"summary\": \"ok\"".toList) _ rfl

end RepoRecon
